import Mathlib

set_option maxRecDepth 8000

/-!
Verification development for the stare derived-analytics pipeline
(compute_weekly_stats.py, compute_sector_sentiment.py,
rank_sector_top_active.py, build_sector_dashboard.py).

Modelling conventions:
* All numeric price/volume/score values are rationals.  The Python floats
  carry exact decimal literals here (0.05, 0.35, ...), which are exact in
  the rationals.
* Tickers and sector names are modelled as numeric codes (Nat).  The only
  operations the pipeline performs on them are equality (joins, group-by)
  and ordering (sorted group-by keys, ORDER BY); the order on codes stands
  for the lexicographic order on the names.
* Dates are modelled as Nat; ISO date strings compare lexicographically
  exactly as their day numbers do.
* SQL NULL and NaN-after-coercion are both modelled as Option.none.
* pandas sort_values is modelled with an insertion sort.  Every sort key
  the pipeline uses except dollar_vol_week contains a primary key and is
  therefore duplicate-free, so the sorted frame does not depend on the
  sort algorithm and the model is exact.  The dollar-volume sort passes no
  kind argument, so pandas sorts with its default numpy quicksort, which
  is not stable: the relative order of rows with equal dollar volumes is
  implementation defined.  The insertion sort is one admissible behaviour;
  statements that are sensitive to tie order are made against the sort
  contract SortedDescDollarVolPerm (some permutation of the group that is
  non-increasing in dollar_vol_week), and the concrete stores below carry
  duplicate-free dollar volumes, on which every sorted permutation
  coincides with the insertion sort.
* Database tables are lists of rows; INSERT OR REPLACE keyed by the
  primary key removes the old rows whose key reappears and appends the
  fresh rows; DELETE-then-INSERT replaces the whole list.
-/

namespace Stare

/-- Remove duplicates keeping the first appearance of each key; models
pandas groupby group order with sort=False and Series.unique. -/
def firstAppearance (l : List Nat) : List Nat :=
  l.foldl (fun acc t => if t ∈ acc then acc else acc ++ [t]) []

/-- INSERT OR REPLACE of a batch of rows into a table under a primary key:
rows of the table whose key reappears in the batch are replaced, all other
rows survive, and the fresh rows are appended. -/
def upsertByKey {α κ : Type} [DecidableEq κ] (key : α → κ) (table rows : List α) : List α :=
  table.filter (fun x => !(rows.any (fun r => key r == key x))) ++ rows

/-- Dataclass WeeklyStatsConfig of compute_weekly_stats.py. -/
structure WeeklyStatsConfig where
  week_sessions : Nat
  baseline_weeks : Nat
deriving DecidableEq

/-- The defaults of the dataclass: week_sessions = 5, baseline_weeks = 8. -/
def defaultWeeklyStatsConfig : WeeklyStatsConfig :=
  { week_sessions := 5, baseline_weeks := 8 }

/-- A row of the prices DB table (columns used by the pipeline).  close and
volume may be NULL or non-numeric; both are modelled as none. -/
structure RawPriceRow where
  ticker : Nat
  date : Nat
  close : Option ℚ
  volume : Option ℚ
deriving DecidableEq

/-- A price row as it leaves load_prices: volume has been coerced with
fillna(0), close is numeric-or-null. -/
structure PriceRow where
  ticker : Nat
  date : Nat
  close : Option ℚ
  volume : ℚ
deriving DecidableEq

/-- SELECT ... FROM prices WHERE close IS NOT NULL ORDER BY ticker, date,
followed by the numeric coercions of load_prices:
volume = to_numeric(volume).fillna(0). -/
def load_prices_df (table : List RawPriceRow) : List PriceRow :=
  ((table.filter (fun r => r.close.isSome)).insertionSort
      (fun a b => a.ticker < b.ticker ∨ (a.ticker = b.ticker ∧ a.date ≤ b.date))).map
    (fun r => { ticker := r.ticker, date := r.date, close := r.close, volume := r.volume.getD 0 })

/-- load_prices of compute_weekly_stats.py: raises RuntimeError when the
query returns no rows. -/
def load_prices (table : List RawPriceRow) : Except String (List PriceRow) :=
  let df := load_prices_df table
  if df.isEmpty then .error "No prices in DB. Run fetch_prices.py first." else .ok df

/-- A row of the weekly_stats table. -/
structure WeeklyStat where
  ticker : Nat
  week_ending : Nat
  weekly_return : Option ℚ
  dollar_vol_week : ℚ
  week_volume : ℚ
  vol_ratio : Option ℚ
deriving DecidableEq

/-- g.sort_values("date") for one ticker group (stable). -/
def sortValuesByDate (g : List PriceRow) : List PriceRow :=
  g.insertionSort (fun a b => a.date ≤ b.date)

/-- float(row close): the closes read below sit behind dropna, so the
default is never consulted. -/
def closeVal (r : PriceRow) : ℚ :=
  r.close.getD 0

/-- The loop body of compute_last_week_stats for one ticker group g0 (the
rows of one ticker, in frame order): dropna on close, sort by date, skip
the ticker when fewer than week_sessions rows remain, otherwise build its
single WeeklyStat row.  none = the continue branch (or the IndexError on
an empty week slice, reachable only with week_sessions = 0). -/
def lastWeekStatsOfGroup (cfg : WeeklyStatsConfig) (ticker : Nat) (g0 : List PriceRow) :
    Option WeeklyStat :=
  let g := sortValuesByDate (g0.filter (fun r => r.close.isSome))
  if g.length < cfg.week_sessions then none
  else
    -- week = g.iloc[-n_week:]; a -0 start means the whole frame
    let week := if cfg.week_sessions = 0 then g else g.drop (g.length - cfg.week_sessions)
    match week.head?, week.getLast? with
    | some firstRow, some lastRow =>
      let week_ending := lastRow.date
      let first_close := closeVal firstRow
      let last_close := closeVal lastRow
      let weekly_return : Option ℚ :=
        if first_close = 0 then none else some (last_close / first_close - 1)
      let dollar_vol_week := (week.map (fun r => closeVal r * r.volume)).sum
      let week_volume := (week.map (fun r => r.volume)).sum
      let n_base := cfg.baseline_weeks * cfg.week_sessions
      let vol_ratio : Option ℚ :=
        if cfg.week_sessions + n_base ≤ g.length then
          -- base = g.iloc[-(n_week + n_base):-n_week]; empty when week_sessions = 0
          let base :=
            if cfg.week_sessions = 0 then []
            else (g.drop (g.length - (cfg.week_sessions + n_base))).take n_base
          let base_total_vol := (base.map (fun r => r.volume)).sum
          if cfg.baseline_weeks = 0 then none
          else
            let avg_week_vol := base_total_vol / (cfg.baseline_weeks : ℚ)
            if avg_week_vol = 0 then none else some (week_volume / avg_week_vol)
        else none
      some
        { ticker := ticker
          week_ending := week_ending
          weekly_return := weekly_return
          dollar_vol_week := dollar_vol_week
          week_volume := week_volume
          vol_ratio := vol_ratio }
    | _, _ => none

/-- compute_last_week_stats of compute_weekly_stats.py: group the frame by
ticker (groups in first-appearance order, rows in frame order) and emit at
most one row per ticker. -/
def compute_last_week_stats (prices : List PriceRow) (cfg : WeeklyStatsConfig) :
    List WeeklyStat :=
  (firstAppearance (prices.map (fun r => r.ticker))).filterMap
    (fun t => lastWeekStatsOfGroup cfg t (prices.filter (fun r => r.ticker == t)))

/-- save_weekly_stats: no write when the frame is empty, otherwise
INSERT OR REPLACE keyed by (ticker, week_ending). -/
def save_weekly_stats (table rows : List WeeklyStat) : List WeeklyStat :=
  if rows.isEmpty then table
  else upsertByKey (fun r => (r.ticker, r.week_ending)) table rows

/-- A row of the universe CSV (only the columns the joins read). -/
structure UniverseRow where
  ticker_yahoo : Nat
  sector : Nat
deriving DecidableEq

/-- A weekly_stats row after the inner merge with
universe[["ticker_yahoo", "sector"]] on ticker = ticker_yahoo.  An inner
merge keeps the left row order; a left row is replicated once per matching
universe row, in universe order. -/
structure MergedStat where
  ticker : Nat
  week_ending : Nat
  weekly_return : Option ℚ
  dollar_vol_week : ℚ
  week_volume : ℚ
  vol_ratio : Option ℚ
  sector : Nat
deriving DecidableEq

/-- The weekly.merge(universe[...], left_on="ticker",
right_on="ticker_yahoo", how="inner") step shared by
compute_sector_sentiment.py and rank_sector_top_active.py. -/
def mergeUniverse (weekly : List WeeklyStat) (univ : List UniverseRow) :
    List MergedStat :=
  weekly.flatMap (fun w =>
    (univ.filter (fun u => u.ticker_yahoo == w.ticker)).map (fun u =>
      { ticker := w.ticker
        week_ending := w.week_ending
        weekly_return := w.weekly_return
        dollar_vol_week := w.dollar_vol_week
        week_volume := w.week_volume
        vol_ratio := w.vol_ratio
        sector := u.sector }))

/-- The group keys of df.groupby("sector"): distinct sectors in ascending
order. -/
def sortedSectors (df : List MergedStat) : List Nat :=
  (firstAppearance (df.map (fun r => r.sector))).insertionSort (fun a b => a ≤ b)

/-- pandas Series.median: NaN entries are excluded by the caller; none on
an empty series, the middle element of the sorted values for an odd count
and the mean of the two middle elements for an even count. -/
def median (l : List ℚ) : Option ℚ :=
  let s := l.insertionSort (fun a b => a ≤ b)
  let n := l.length
  if n = 0 then none
  else if n % 2 = 1 then some (s.getD (n / 2) 0)
  else some ((s.getD (n / 2 - 1) 0 + s.getD (n / 2) 0) / 2)

/-- The weekly_return > 0 test of the breadth computation: NaN compares
False. -/
def isPosReturn (r : MergedStat) : Bool :=
  match r.weekly_return with
  | some v => decide (0 < v)
  | none => false

/-- The direction label of compute_sector_sentiment.py. -/
inductive Direction where
  | Neutral
  | Bullish
  | Bearish
deriving DecidableEq

/-- direction as a function of the raw score: Neutral on small magnitude,
else the sign decides. -/
def directionOf (raw : ℚ) : Direction :=
  if |raw| < 0.05 then .Neutral
  else if 0 < raw then .Bullish
  else .Bearish

/-- strength = int(min(100, abs(raw) * 100)); int() truncates toward zero
and the argument is nonnegative, so this is the floor. -/
def strengthOf (raw : ℚ) : ℤ :=
  Int.floor (min (100 : ℚ) (|raw| * 100))

/-- The diagnostics_json payload of a sector_sentiment row. -/
structure Diagnostics where
  n_stocks : Nat
  breadth : ℚ
  median_return : Option ℚ
  median_vol_ratio : Option ℚ
  breadth_signal : ℚ
  return_signal : ℚ
  volume_signal : ℚ
deriving DecidableEq

/-- A row of the sector_sentiment table. -/
structure SectorSentimentRow where
  sector : Nat
  week_ending : Nat
  raw_score : ℚ
  direction : Direction
  strength : ℤ
  diagnostics_json : Diagnostics
deriving DecidableEq

/-- The body of compute_sector_sentiment's per-sector loop: g is the
sector's group (merged rows in frame order); none = the continue branch
for groups smaller than 5. -/
def sectorSentimentOfGroup (sector : Nat) (g : List MergedStat) :
    Option SectorSentimentRow :=
  let n := g.length
  if n < 5 then none
  else
    let breadth : ℚ := (g.countP isPosReturn : ℚ) / (n : ℚ)
    let breadth_signal := (breadth - 0.5) * 2.0
    let median_ret := median (g.filterMap (fun r => r.weekly_return))
    let return_signal : ℚ :=
      match median_ret with
      | some m => max (-1.0) (min 1.0 (m / 0.03))
      | none => 0.0
    let median_vol_ratio := median (g.filterMap (fun r => r.vol_ratio))
    let volume_signal : ℚ :=
      match median_vol_ratio with
      | some m => max (-1.0) (min 1.0 ((m - 1.0) / 0.5))
      | none => 0.0
    let raw := 0.50 * breadth_signal + 0.35 * return_signal + 0.15 * volume_signal
    match g.head? with
    | none => none
    | some h =>
      some
        { sector := sector
          week_ending := h.week_ending
          raw_score := raw
          direction := directionOf raw
          strength := strengthOf raw
          diagnostics_json :=
            { n_stocks := n
              breadth := breadth
              median_return := median_ret
              median_vol_ratio := median_vol_ratio
              breadth_signal := breadth_signal
              return_signal := return_signal
              volume_signal := volume_signal } }

/-- compute_sector_sentiment of compute_sector_sentiment.py. -/
def compute_sector_sentiment (weekly : List WeeklyStat) (univ : List UniverseRow) :
    List SectorSentimentRow :=
  let df := mergeUniverse weekly univ
  (sortedSectors df).filterMap (fun sector =>
    sectorSentimentOfGroup sector (df.filter (fun r => r.sector == sector)))

/-- save_sector_sentiment: INSERT OR REPLACE keyed by (sector,
week_ending).  The function has no empty-frame guard: with zero records
conn.execute(text, []) is a single execution with no bound values and
sqlalchemy raises on the unbound parameters (main would raise KeyError on
the column-less frame right after), so an empty batch is an error, not a
no-op. -/
def save_sector_sentiment (table rows : List SectorSentimentRow) :
    Except String (List SectorSentimentRow) :=
  if rows.isEmpty then .error "A value is required for bind parameter sector"
  else .ok (upsertByKey (fun r => (r.sector, r.week_ending)) table rows)

/-- A row of the sector_top_active table. -/
structure TopActiveRow where
  sector : Nat
  week_ending : Nat
  rank : Nat
  ticker : Nat
  dollar_vol_week : ℚ
  weekly_return : Option ℚ
  vol_ratio : Option ℚ
deriving DecidableEq

/-- The executable model of g.sort_values("dollar_vol_week",
ascending=False): an insertion sort, one admissible descending order.  The
source passes no kind argument, so pandas sorts with its default numpy
quicksort, which is not stable: the order of rows with equal dollar
volumes is implementation defined and the code warrants no more than
SortedDescDollarVolPerm below.  On a group with duplicate-free dollar
volumes every sorted permutation coincides, and this function is exactly
the code's frame. -/
def sortDescDollarVol (g : List MergedStat) : List MergedStat :=
  g.insertionSort (fun a b => b.dollar_vol_week ≤ a.dollar_vol_week)

/-- The sort contract of g.sort_values("dollar_vol_week", ascending=False)
with the kind argument left at its unstable default: the sorted frame is
some permutation of the group that is non-increasing in dollar_vol_week,
and nothing further is guaranteed about the relative order of equal dollar
volumes. -/
def SortedDescDollarVolPerm (g g' : List MergedStat) : Prop :=
  List.Perm g g' ∧ List.Pairwise (fun a b => b.dollar_vol_week ≤ a.dollar_vol_week) g'

/-- The emission step of rank_top_active's per-sector loop, applied to the
already sorted-and-truncated group: stamp every row with the week_ending
of the leading row and enumerate ranks from 1.  The empty arm models the
IndexError of iloc[0] on an empty head, reachable only with top_n = 0. -/
def emitTopActive (sector : Nat) (g : List MergedStat) : List TopActiveRow :=
  match g.head? with
  | none => []
  | some h =>
    (g.enumFrom 1).map (fun p =>
      { sector := sector
        week_ending := h.week_ending
        rank := p.1
        ticker := p.2.ticker
        dollar_vol_week := p.2.dollar_vol_week
        weekly_return := p.2.weekly_return
        vol_ratio := p.2.vol_ratio })

/-- The body of rank_top_active's per-sector loop in the executable model:
sort the group by descending dollar_vol_week (insertion sort, one
admissible order), take the first top_n rows and emit them. -/
def topActiveOfGroup (top_n : Nat) (sector : Nat) (g0 : List MergedStat) :
    List TopActiveRow :=
  emitTopActive sector ((sortDescDollarVol g0).take top_n)

/-- The per-sector loop body under the sort contract: the emitted rows
come from the first top_n rows of some sorted permutation of the group. -/
def TopActiveOfGroupRel (top_n : Nat) (sector : Nat) (g0 : List MergedStat)
    (out : List TopActiveRow) : Prop :=
  ∃ g', SortedDescDollarVolPerm g0 g' ∧ out = emitTopActive sector (g'.take top_n)

/-- rank_top_active of rank_sector_top_active.py (executable model,
insertion-sorted groups). -/
def rank_top_active (weekly : List WeeklyStat) (univ : List UniverseRow)
    (top_n : Nat) : List TopActiveRow :=
  let df := mergeUniverse weekly univ
  (sortedSectors df).flatMap (fun sector =>
    topActiveOfGroup top_n sector (df.filter (fun r => r.sector == sector)))

/-- rank_top_active under the sort contract: per sector (ascending group
keys) an admissible per-sector output, concatenated.  Every behaviour of
the source function, whatever order its unstable sort puts equal dollar
volumes in, satisfies this relation; the executable rank_top_active is one
of them. -/
def RankTopActiveRel (weekly : List WeeklyStat) (univ : List UniverseRow)
    (top_n : Nat) (out : List TopActiveRow) : Prop :=
  ∃ pick : Nat → List TopActiveRow,
    (∀ s ∈ sortedSectors (mergeUniverse weekly univ),
      TopActiveOfGroupRel top_n s
        ((mergeUniverse weekly univ).filter (fun r => r.sector == s)) (pick s)) ∧
    out = (sortedSectors (mergeUniverse weekly univ)).flatMap pick

/-- save_top_active: INSERT OR REPLACE keyed by (sector, week_ending,
rank).  Like save_sector_sentiment it has no empty-frame guard, so an
empty batch raises on the unbound bind parameters. -/
def save_top_active (table rows : List TopActiveRow) :
    Except String (List TopActiveRow) :=
  if rows.isEmpty then .error "A value is required for bind parameter sector"
  else .ok (upsertByKey (fun r => (r.sector, r.week_ending, r.rank)) table rows)

/-- A fundamentals_latest row with normalized_json already expanded into
the columns the dashboard selects.  asof_utc and the textual fields are
numeric codes (only equality and presence matter to the pipeline). -/
structure FundamentalsRow where
  ticker : Nat
  asof_utc : Nat
  shortName : Option Nat
  industry : Option Nat
  currency : Option Nat
  exchange : Option Nat
  marketCap : Option ℚ
  trailingPE : Option ℚ
  forwardPE : Option ℚ
  priceToBook : Option ℚ
  profitMargins : Option ℚ
  operatingMargins : Option ℚ
  returnOnEquity : Option ℚ
  dividendYield : Option ℚ
  beta : Option ℚ
deriving DecidableEq

/-- load_fundamentals_latest of build_sector_dashboard.py: raises
RuntimeError on an empty table. -/
def load_fundamentals_latest (table : List FundamentalsRow) :
    Except String (List FundamentalsRow) :=
  if table.isEmpty then .error "No fundamentals_latest found. Run fetch_fundamentals.py first."
  else .ok table

/-- A row of the 7-trading-session return frame of compute_7d_returns. -/
structure R7Row where
  ticker : Nat
  return_7d : Option ℚ
deriving DecidableEq

/-- compute_7d_returns of build_sector_dashboard.py: close history up to
asof for the requested tickers, grouped by ticker; a ticker with fewer
than 8 closes gets a null return, otherwise
return_7d = close(asof)/close(7 sessions earlier) - 1 (null when the
older close is 0). -/
def compute_7d_returns (pricesTable : List RawPriceRow) (tickers : List Nat)
    (asof : Nat) : List R7Row :=
  if tickers.isEmpty then []
  else
    let df :=
      (pricesTable.filter (fun r =>
          decide (r.date ≤ asof) && tickers.contains r.ticker && r.close.isSome)).insertionSort
        (fun a b => a.ticker < b.ticker ∨ (a.ticker = b.ticker ∧ a.date ≤ b.date))
    if df.isEmpty then []
    else
      (firstAppearance (df.map (fun r => r.ticker))).map (fun t =>
        let g :=
          ((df.filter (fun r => r.ticker == t)).filter (fun r => r.close.isSome)).insertionSort
            (fun a b => a.date ≤ b.date)
        if g.length < 8 then { ticker := t, return_7d := none }
        else
          let last8 := g.drop (g.length - 8)
          let c0 := (last8.head?.map (fun r => r.close.getD 0)).getD 0
          let c7 := (last8.getLast?.map (fun r => r.close.getD 0)).getD 0
          { ticker := t, return_7d := if c0 = 0 then none else some (c7 / c0 - 1) })

/-- A row of the FLAT dashboard view (and of the sector_dashboard_top10
table).  The sentiment columns arrive through a left join and are null for
a sector without a sentiment row. -/
structure FlatRow where
  sector : Nat
  week_ending : Nat
  rank : Nat
  ticker : Nat
  direction : Option Direction
  strength : Option ℤ
  raw_score : Option ℚ
  dollar_vol_week : ℚ
  weekly_return : Option ℚ
  vol_ratio : Option ℚ
  marketCap : Option ℚ
  trailingPE : Option ℚ
  forwardPE : Option ℚ
  priceToBook : Option ℚ
  profitMargins : Option ℚ
  operatingMargins : Option ℚ
  returnOnEquity : Option ℚ
  dividendYield : Option ℚ
  beta : Option ℚ
  shortName : Option Nat
  industry : Option Nat
  currency : Option Nat
  exchange : Option Nat
  asof_utc : Option Nat
  return_7d : Option ℚ
deriving DecidableEq

/-- Left merge of a list against a lookup list: every left row survives;
a left row with matches is replicated once per match (in right order), a
left row without matches keeps null right-hand columns. -/
def leftMerge {α β γ : Type} (l : List α) (r : List β) (hit : α → β → Bool)
    (combine : α → β → γ) (missing : α → γ) : List γ :=
  l.flatMap (fun a =>
    let ms := r.filter (hit a)
    if ms.isEmpty then [missing a] else ms.map (combine a))

/-- A top_active row after the left merge with the sentiment columns. -/
structure TaSent where
  ta : TopActiveRow
  direction : Option Direction
  strength : Option ℤ
  raw_score : Option ℚ
deriving DecidableEq

/-- A TaSent row after the left merge with fundamentals_expanded. -/
structure TaSentFund where
  ts : TaSent
  fund : Option FundamentalsRow
deriving DecidableEq

/-- The merge key of the first dashboard join: sentiment onto top-active
on (sector, week_ending). -/
def hitSent (ta : TopActiveRow) (s : SectorSentimentRow) : Bool :=
  ta.sector == s.sector && ta.week_ending == s.week_ending

/-- A matched row of the first dashboard join. -/
def taSentHit (ta : TopActiveRow) (s : SectorSentimentRow) : TaSent :=
  { ta := ta, direction := some s.direction, strength := some s.strength,
    raw_score := some s.raw_score }

/-- An unmatched row of the first dashboard join (null sentiment
columns). -/
def taSentMiss (ta : TopActiveRow) : TaSent :=
  { ta := ta, direction := none, strength := none, raw_score := none }

/-- The merge key of the second dashboard join: fundamentals on ticker. -/
def hitFund (x : TaSent) (f : FundamentalsRow) : Bool :=
  x.ta.ticker == f.ticker

/-- The merge key of the third dashboard join: 7-session returns on
ticker. -/
def hitR7 (x : TaSentFund) (r : R7Row) : Bool :=
  x.ts.ta.ticker == r.ticker

/-- The selected column set of the FLAT view for one joined row, before
the return_7d column. -/
def flatRowBase (x : TaSentFund) : FlatRow :=
  { sector := x.ts.ta.sector
    week_ending := x.ts.ta.week_ending
    rank := x.ts.ta.rank
    ticker := x.ts.ta.ticker
    direction := x.ts.direction
    strength := x.ts.strength
    raw_score := x.ts.raw_score
    dollar_vol_week := x.ts.ta.dollar_vol_week
    weekly_return := x.ts.ta.weekly_return
    vol_ratio := x.ts.ta.vol_ratio
    marketCap := x.fund.bind (fun f => f.marketCap)
    trailingPE := x.fund.bind (fun f => f.trailingPE)
    forwardPE := x.fund.bind (fun f => f.forwardPE)
    priceToBook := x.fund.bind (fun f => f.priceToBook)
    profitMargins := x.fund.bind (fun f => f.profitMargins)
    operatingMargins := x.fund.bind (fun f => f.operatingMargins)
    returnOnEquity := x.fund.bind (fun f => f.returnOnEquity)
    dividendYield := x.fund.bind (fun f => f.dividendYield)
    beta := x.fund.bind (fun f => f.beta)
    shortName := x.fund.bind (fun f => f.shortName)
    industry := x.fund.bind (fun f => f.industry)
    currency := x.fund.bind (fun f => f.currency)
    exchange := x.fund.bind (fun f => f.exchange)
    asof_utc := x.fund.map (fun f => f.asof_utc)
    return_7d := none }

/-- A matched row of the third dashboard join. -/
def flatRowHit (x : TaSentFund) (r : R7Row) : FlatRow :=
  { flatRowBase x with return_7d := r.return_7d }

/-- build_flat_dashboard of build_sector_dashboard.py: left-join the
sentiment columns onto each top-active row on (sector, week_ending), then
the expanded fundamentals on ticker, then the 7-session returns on
ticker; select the fixed column set (absent columns become null,
to_numeric leaves the numeric-or-null model values unchanged). -/
def build_flat_dashboard (sentiment : List SectorSentimentRow)
    (top_active : List TopActiveRow) (fundamentals_expanded : List FundamentalsRow)
    (r7 : List R7Row) : List FlatRow :=
  let m1 : List TaSent := leftMerge top_active sentiment hitSent taSentHit taSentMiss
  let m2 : List TaSentFund :=
    leftMerge m1 fundamentals_expanded hitFund (fun x f => { ts := x, fund := some f })
      (fun x => { ts := x, fund := none })
  leftMerge m2 r7 hitR7 flatRowHit flatRowBase

/-- The fundamentals sub-object of a NESTED top-active entry. -/
structure NestedFund where
  shortName : Option Nat
  industry : Option Nat
  exchange : Option Nat
  currency : Option Nat
  marketCap : Option ℚ
  trailingPE : Option ℚ
  forwardPE : Option ℚ
  priceToBook : Option ℚ
  profitMargins : Option ℚ
  operatingMargins : Option ℚ
  returnOnEquity : Option ℚ
  dividendYield : Option ℚ
  beta : Option ℚ
deriving DecidableEq

/-- One entry of a sector's top10_active list in the NESTED view. -/
structure NestedEntry where
  rank : Nat
  ticker : Nat
  weekly_return : Option ℚ
  dollar_vol_week : Option ℚ
  vol_ratio : Option ℚ
  fundamentals : NestedFund
deriving DecidableEq

/-- One sector object of the NESTED view. -/
structure NestedSector where
  sector : Nat
  week_ending : Nat
  direction : Direction
  strength : Option ℤ
  raw_score : Option ℚ
  diagnostics : Option Diagnostics
  top10_active : List NestedEntry
deriving DecidableEq

/-- The NESTED dashboard document. -/
structure NestedDashboard where
  sectors : List NestedSector
deriving DecidableEq

/-- sentiment.sort_values(["strength", "sector"], ascending=[False, True])
(stable lexicographic sort). -/
def sortSentimentForNested (sentiment : List SectorSentimentRow) :
    List SectorSentimentRow :=
  sentiment.insertionSort (fun a b =>
    b.strength < a.strength ∨ (a.strength = b.strength ∧ a.sector ≤ b.sector))

/-- build_nested_json of build_sector_dashboard.py: one object per
sentiment row ordered by (strength desc, sector asc), each holding its
sector's flat rows ordered by rank. -/
def build_nested_json (sentiment : List SectorSentimentRow) (flat : List FlatRow) :
    NestedDashboard :=
  { sectors :=
      (sortSentimentForNested sentiment).map (fun srow =>
        { sector := srow.sector
          week_ending := srow.week_ending
          direction := srow.direction
          strength := some srow.strength
          raw_score := some srow.raw_score
          diagnostics := some srow.diagnostics_json
          top10_active :=
            ((flat.filter (fun r => r.sector == srow.sector)).insertionSort
                (fun a b => a.rank ≤ b.rank)).map (fun r =>
              { rank := r.rank
                ticker := r.ticker
                weekly_return := r.weekly_return
                dollar_vol_week := some r.dollar_vol_week
                vol_ratio := r.vol_ratio
                fundamentals :=
                  { shortName := r.shortName
                    industry := r.industry
                    exchange := r.exchange
                    currency := r.currency
                    marketCap := r.marketCap
                    trailingPE := r.trailingPE
                    forwardPE := r.forwardPE
                    priceToBook := r.priceToBook
                    profitMargins := r.profitMargins
                    operatingMargins := r.operatingMargins
                    returnOnEquity := r.returnOnEquity
                    dividendYield := r.dividendYield
                    beta := r.beta } }) }) }

/-- upsert_sql_dashboard: nothing happens on an empty frame, otherwise
DELETE FROM sector_dashboard_top10 then INSERT every flat row. -/
def upsert_sql_dashboard (table flat : List FlatRow) : List FlatRow :=
  if flat.isEmpty then table else flat

/-- SELECT MAX(week_ending) FROM sector_sentiment; RuntimeError when the
table is empty. -/
def load_latest_week_ending (table : List SectorSentimentRow) : Except String Nat :=
  match (table.map (fun r => r.week_ending)).max? with
  | none => .error "No sector_sentiment data found. Run compute_sector_sentiment.py first."
  | some w => .ok w

/-- load_sector_sentiment: the sentiment rows of one week, in table
order. -/
def load_sector_sentiment (table : List SectorSentimentRow) (week_ending : Nat) :
    List SectorSentimentRow :=
  table.filter (fun r => r.week_ending == week_ending)

/-- load_sector_top_active: the top-active rows of one week,
ORDER BY sector, rank. -/
def load_sector_top_active (table : List TopActiveRow) (week_ending : Nat) :
    List TopActiveRow :=
  (table.filter (fun r => r.week_ending == week_ending)).insertionSort
    (fun a b => a.sector < b.sector ∨ (a.sector = b.sector ∧ a.rank ≤ b.rank))

/-- The backing SQLite database plus the reference CSV, as one record. -/
structure Store where
  prices : List RawPriceRow
  univ : List UniverseRow
  fundamentals_latest : List FundamentalsRow
  weekly_stats : List WeeklyStat
  sector_sentiment : List SectorSentimentRow
  sector_top_active : List TopActiveRow
  sector_dashboard_top10 : List FlatRow
deriving DecidableEq

/-- The outward-facing result of one dashboard build: the FLAT view and
the NESTED view. -/
structure DashboardOutput where
  flat : List FlatRow
  nested : NestedDashboard
deriving DecidableEq

/-- main of compute_weekly_stats.py. -/
def weeklyStatsMain (s : Store) : Except String Store :=
  (load_prices s.prices).map (fun prices =>
    { s with
      weekly_stats :=
        save_weekly_stats s.weekly_stats
          (compute_last_week_stats prices defaultWeeklyStatsConfig) })

/-- main of compute_sector_sentiment.py: recompute the sentiment frame and
save it; with no sector retained the frame is empty and the save raises. -/
def sectorSentimentMain (s : Store) : Except String Store :=
  match save_sector_sentiment s.sector_sentiment
      (compute_sector_sentiment s.weekly_stats s.univ) with
  | .error e => .error e
  | .ok t => .ok { s with sector_sentiment := t }

/-- main of rank_sector_top_active.py (top_n = 10): recompute the ranked
frame and save it; with an empty frame the save raises. -/
def topActiveMain (s : Store) : Except String Store :=
  match save_top_active s.sector_top_active
      (rank_top_active s.weekly_stats s.univ 10) with
  | .error e => .error e
  | .ok t => .ok { s with sector_top_active := t }

/-- main of build_sector_dashboard.py: pick the latest sentiment week,
load that week's sentiment and top-active rows, compute 7-session returns
for the ranked tickers, expand fundamentals, build the FLAT and NESTED
views and replace the dashboard table. -/
def dashboardMain (s : Store) : Except String (DashboardOutput × Store) :=
  match load_latest_week_ending s.sector_sentiment with
  | .error e => .error e
  | .ok we =>
    let sentiment := load_sector_sentiment s.sector_sentiment we
    let top_active := load_sector_top_active s.sector_top_active we
    let tickers := firstAppearance (top_active.map (fun r => r.ticker))
    let r7 := compute_7d_returns s.prices tickers we
    match load_fundamentals_latest s.fundamentals_latest with
    | .error e => .error e
    | .ok fundamentals =>
      let flat := build_flat_dashboard sentiment top_active fundamentals r7
      let nested := build_nested_json sentiment flat
      .ok (⟨flat, nested⟩,
        { s with sector_dashboard_top10 := upsert_sql_dashboard s.sector_dashboard_top10 flat })

/-- The derived-analytics chain of run_pipeline.py: weekly stats, sector
sentiment, top active, dashboard (the excluded fetch stages read only). -/
def run_pipeline (s : Store) : Except String (DashboardOutput × Store) :=
  match weeklyStatsMain s with
  | .error e => .error e
  | .ok s1 =>
    match sectorSentimentMain s1 with
    | .error e => .error e
    | .ok s2 =>
      match topActiveMain s2 with
      | .error e => .error e
      | .ok s3 => dashboardMain s3

/-- The number of leaves of the NESTED view: the top-active entries summed
over its sector objects. -/
def nestedLeafCount (n : NestedDashboard) : Nat :=
  (n.sectors.map (fun s => s.top10_active.length)).sum

/-- Five members of one sector, flat week: a concrete input for the C5
witness. -/
def c5weekly : List WeeklyStat :=
  [⟨1, 5, some 0, 0, 0, none⟩, ⟨2, 5, some 0, 0, 0, none⟩, ⟨3, 5, some 0, 0, 0, none⟩,
   ⟨4, 5, some 0, 0, 0, none⟩, ⟨5, 5, some 0, 0, 0, none⟩]

/-- The sector map for the C5 witness. -/
def c5univ : List UniverseRow :=
  [⟨1, 10⟩, ⟨2, 10⟩, ⟨3, 10⟩, ⟨4, 10⟩, ⟨5, 10⟩]

/-- The sentiment row computed from c5weekly and c5univ. -/
def c5row : SectorSentimentRow :=
  { sector := 10, week_ending := 5, raw_score := -0.5, direction := Direction.Bearish,
    strength := 50,
    diagnostics_json :=
      { n_stocks := 5, breadth := 0, median_return := some 0, median_vol_ratio := none,
        breadth_signal := -1, return_signal := 0, volume_signal := 0 } }

/-- A one-row fundamentals store shared by the concrete pipeline runs. -/
def exFund : List FundamentalsRow :=
  [{ ticker := 1, asof_utc := 0, shortName := some 7, industry := none, currency := none,
     exchange := none, marketCap := some 5, trailingPE := none, forwardPE := none,
     priceToBook := none, profitMargins := none, operatingMargins := none,
     returnOnEquity := none, dividendYield := none, beta := none }]

/-- A sector map with one five-member sector (code 10) and one one-member
sector (code 20). -/
def exUniv : List UniverseRow :=
  [⟨1, 10⟩, ⟨2, 10⟩, ⟨3, 10⟩, ⟨4, 10⟩, ⟨5, 10⟩, ⟨6, 20⟩]

/-- A weekly_stats row left over from an earlier week-50 run, for a ticker
(99) that has since left the universe CSV. -/
def c2oldWeekly : WeeklyStat :=
  { ticker := 99, week_ending := 50, weekly_return := none, dollar_vol_week := 0,
    week_volume := 0, vol_ratio := none }

/-- The weekly_stats row the week-105 run computes for ticker 1. -/
def c2newWeekly : WeeklyStat :=
  { ticker := 1, week_ending := 105, weekly_return := some 0, dollar_vol_week := 50,
    week_volume := 50, vol_ratio := none }

/-- A sector_sentiment row left over from the earlier week-50 run. -/
def c2oldSent : SectorSentimentRow :=
  { sector := 10, week_ending := 50, raw_score := 0, direction := Direction.Neutral,
    strength := 0,
    diagnostics_json :=
      { n_stocks := 0, breadth := 0, median_return := none, median_vol_ratio := none,
        breadth_signal := 0, return_signal := 0, volume_signal := 0 } }

/-- A week-105 sector_sentiment row (concrete input of the amended C2
witness). -/
def c2newSent : SectorSentimentRow :=
  { sector := 10, week_ending := 105, raw_score := 0, direction := Direction.Neutral,
    strength := 0,
    diagnostics_json :=
      { n_stocks := 5, breadth := 0, median_return := none, median_vol_ratio := none,
        breadth_signal := 0, return_signal := 0, volume_signal := 0 } }

/-- A sector_top_active row left over from the earlier week-50 run. -/
def c2oldTop : TopActiveRow :=
  { sector := 10, week_ending := 50, rank := 1, ticker := 99, dollar_vol_week := 1,
    weekly_return := none, vol_ratio := none }

/-- A week-105 sector_top_active row (concrete input of the amended C2
witness). -/
def c2newTop : TopActiveRow :=
  { sector := 10, week_ending := 105, rank := 1, ticker := 5, dollar_vol_week := 250,
    weekly_return := some 0, vol_ratio := none }

/-- Five fresh week-101..105 sessions for each of the six exUniv tickers,
with distinct volumes. -/
def c2prices : List RawPriceRow :=
  (List.range' 1 6).flatMap (fun t =>
    (List.range' 101 5).map (fun d => ⟨t, d, some 1, some (10 * t)⟩))

/-- A store holding week-50 leftovers in weekly_stats and sector_sentiment
plus the fresh week-101..105 prices: the week-105 run on it succeeds end
to end (sector 10 retains five members, every save batch is nonempty). -/
def c2store : Store :=
  { prices := c2prices
    univ := exUniv
    fundamentals_latest := exFund
    weekly_stats := [c2oldWeekly]
    sector_sentiment := [c2oldSent]
    sector_top_active := []
    sector_dashboard_top10 := [] }

/-- The six weekly_stats rows the week-105 run computes on c2store. -/
def c2freshWeekly : List WeeklyStat :=
  [⟨1, 105, some 0, 50, 50, none⟩, ⟨2, 105, some 0, 100, 100, none⟩,
   ⟨3, 105, some 0, 150, 150, none⟩, ⟨4, 105, some 0, 200, 200, none⟩,
   ⟨5, 105, some 0, 250, 250, none⟩, ⟨6, 105, some 0, 300, 300, none⟩]

/-- Five flat sessions (dates 1..5) per ticker 1..6, with distinct
volumes. -/
def exPrices : List RawPriceRow :=
  (List.range' 1 6).flatMap (fun t =>
    (List.range' 1 5).map (fun d => ⟨t, d, some 1, some (10 * t)⟩))

/-- A fresh store: prices, universe and fundamentals populated, all
derived tables empty. -/
def exStore : Store :=
  { prices := exPrices, univ := exUniv, fundamentals_latest := exFund,
    weekly_stats := [], sector_sentiment := [], sector_top_active := [],
    sector_dashboard_top10 := [] }

/-- Five sessions of ticker 1 with a 10 percent move, for the C6
witness. -/
def c6prices : List PriceRow :=
  [⟨1, 1, some 10, 100⟩, ⟨1, 2, some 10, 100⟩, ⟨1, 3, some 10, 100⟩,
   ⟨1, 4, some 10, 100⟩, ⟨1, 5, some 11, 100⟩]

/-- Forty-five sessions of ticker 1 with constant volume 2, for the C4
witness. -/
def c4prices : List PriceRow :=
  (List.range' 1 45).map (fun d => ⟨1, d, some 1, 2⟩)

/-- The weekly row computed for c4prices. -/
def c4row : WeeklyStat :=
  { ticker := 1, week_ending := 45, weekly_return := some 0, dollar_vol_week := 10,
    week_volume := 10, vol_ratio := some 1 }

instance instTotalDescDollarVol :
    IsTotal MergedStat (fun a b => b.dollar_vol_week ≤ a.dollar_vol_week) :=
  ⟨fun a b => le_total b.dollar_vol_week a.dollar_vol_week⟩

instance instTransDescDollarVol :
    IsTrans MergedStat (fun a b => b.dollar_vol_week ≤ a.dollar_vol_week) :=
  ⟨fun _ _ _ hab hbc => le_trans hbc hab⟩

/-- Three one-sector rows with a dollar-volume tie, for the C1 witness. -/
def c1weekly : List WeeklyStat :=
  [⟨1, 5, some 0, 5, 0, none⟩, ⟨2, 5, some 0, 9, 0, none⟩, ⟨3, 5, some 0, 5, 0, none⟩]

/-- The sector map for the C1 witness. -/
def c1univ : List UniverseRow :=
  [⟨1, 10⟩, ⟨2, 10⟩, ⟨3, 10⟩]

/-- A sorted permutation of the merged sector-10 group of
c1weekly/c1univ that flips the dollar-volume tie: descending dollar
volume, with the tied tickers 3 and 1 in reversed input order. -/
def c1flip : List MergedStat :=
  [⟨2, 5, some 0, 9, 0, none, 10⟩, ⟨3, 5, some 0, 5, 0, none, 10⟩,
   ⟨1, 5, some 0, 5, 0, none, 10⟩]

/-- A top-active output admitted by the sort contract on c1weekly/c1univ
in which the tied rows come out in reversed input order. -/
def c1tieOut : List TopActiveRow :=
  [⟨10, 5, 1, 2, 9, some 0, none⟩, ⟨10, 5, 2, 3, 5, some 0, none⟩,
   ⟨10, 5, 3, 1, 5, some 0, none⟩]

/-- The output of the concrete run of exStore. -/
def exRunOut : DashboardOutput :=
  match run_pipeline exStore with
  | .ok p => p.1
  | .error _ => ⟨[], ⟨[]⟩⟩

/-- The store left behind by the concrete run of exStore. -/
def exRunStore : Store :=
  match run_pipeline exStore with
  | .ok p => p.2
  | .error _ => exStore

unseal Rat.add Rat.mul Rat.sub Rat.inv Rat.ofScientific

/-! ### Helper lemmas -/

theorem firstAppearance_go_mem (l acc : List Nat) (a : Nat) :
    a ∈ l.foldl (fun acc t => if t ∈ acc then acc else acc ++ [t]) acc ↔ a ∈ acc ∨ a ∈ l := by
  induction l generalizing acc with
  | nil => simp
  | cons t l ih =>
    simp only [List.foldl_cons]
    rw [ih]
    by_cases h : t ∈ acc
    · simp only [if_pos h, List.mem_cons]
      constructor
      · rintro (ha | hl)
        · exact Or.inl ha
        · exact Or.inr (Or.inr hl)
      · rintro (ha | rfl | hl)
        · exact Or.inl ha
        · exact Or.inl h
        · exact Or.inr hl
    · simp only [if_neg h, List.mem_append, List.mem_singleton, List.mem_cons]
      tauto

theorem mem_firstAppearance (l : List Nat) (a : Nat) :
    a ∈ firstAppearance l ↔ a ∈ l := by
  unfold firstAppearance
  rw [firstAppearance_go_mem]
  simp

theorem firstAppearance_go_nodup (l : List Nat) (acc : List Nat) (h : acc.Nodup) :
    (l.foldl (fun acc t => if t ∈ acc then acc else acc ++ [t]) acc).Nodup := by
  induction l generalizing acc with
  | nil => simpa using h
  | cons t l ih =>
    simp only [List.foldl_cons]
    by_cases ht : t ∈ acc
    · rw [if_pos ht]; exact ih acc h
    · rw [if_neg ht]
      refine ih _ ?_
      simpa [List.nodup_append, h] using ht

theorem nodup_firstAppearance (l : List Nat) : (firstAppearance l).Nodup :=
  firstAppearance_go_nodup l [] List.nodup_nil

theorem nodup_sortedSectors (df : List MergedStat) : (sortedSectors df).Nodup :=
  ((List.perm_insertionSort _ _).nodup_iff).mpr (nodup_firstAppearance _)

theorem mem_sortedSectors (df : List MergedStat) (s : Nat) :
    s ∈ sortedSectors df ↔ s ∈ df.map (fun r => r.sector) := by
  unfold sortedSectors
  rw [(List.perm_insertionSort _ _).mem_iff, mem_firstAppearance]

theorem upsertByKey_idem {α κ : Type} [DecidableEq κ] (key : α → κ) (t rows : List α) :
    upsertByKey key (upsertByKey key t rows) rows = upsertByKey key t rows := by
  unfold upsertByKey
  rw [List.filter_append]
  have h2 : rows.filter (fun x => !(rows.any (fun r => key r == key x))) = [] := by
    refine List.filter_eq_nil_iff.mpr (fun a ha => ?_)
    simp only [Bool.not_eq_true', Bool.not_eq_true, Bool.not_eq_false]
    exact List.any_eq_true.mpr ⟨a, ha, by simp⟩
  have h1 :
      (t.filter (fun x => !(rows.any (fun r => key r == key x)))).filter
          (fun x => !(rows.any (fun r => key r == key x))) =
        t.filter (fun x => !(rows.any (fun r => key r == key x))) := by
    refine List.filter_eq_self.mpr (fun a ha => ?_)
    exact (List.mem_filter.mp ha).2
  rw [h1, h2]
  simp

theorem save_weekly_stats_idem (t rows : List WeeklyStat) :
    save_weekly_stats (save_weekly_stats t rows) rows = save_weekly_stats t rows := by
  by_cases h : rows.isEmpty <;> simp [save_weekly_stats, h, upsertByKey_idem]

theorem save_sector_sentiment_idem (t t2 rows : List SectorSentimentRow)
    (h : save_sector_sentiment t rows = Except.ok t2) :
    save_sector_sentiment t2 rows = Except.ok t2 := by
  unfold save_sector_sentiment at h ⊢
  by_cases he : rows.isEmpty
  · rw [if_pos he] at h
    exact absurd h (by simp)
  · rw [if_neg he] at h ⊢
    rw [Except.ok.injEq] at h ⊢
    rw [← h]
    exact upsertByKey_idem _ _ _

theorem save_top_active_idem (t t2 rows : List TopActiveRow)
    (h : save_top_active t rows = Except.ok t2) :
    save_top_active t2 rows = Except.ok t2 := by
  unfold save_top_active at h ⊢
  by_cases he : rows.isEmpty
  · rw [if_pos he] at h
    exact absurd h (by simp)
  · rw [if_neg he] at h ⊢
    rw [Except.ok.injEq] at h ⊢
    rw [← h]
    exact upsertByKey_idem _ _ _

theorem mem_upsertByKey_of_mem_rows {α κ : Type} [DecidableEq κ] (key : α → κ)
    (t rows : List α) (r : α) (hr : r ∈ rows) : r ∈ upsertByKey key t rows :=
  List.mem_append_right _ hr

theorem mem_upsertByKey_of_mem_table {α κ : Type} [DecidableEq κ] (key : α → κ)
    (t rows : List α) (x : α) (hx : x ∈ t) (hk : ∀ q ∈ rows, key q ≠ key x) :
    x ∈ upsertByKey key t rows := by
  refine List.mem_append_left _ (List.mem_filter.mpr ⟨hx, ?_⟩)
  simp only [Bool.not_eq_true', List.any_eq_false]
  intro q hq
  exact fun h => hk q hq (of_decide_eq_true h)

theorem upsert_sql_dashboard_idem (t flat : List FlatRow) :
    upsert_sql_dashboard (upsert_sql_dashboard t flat) flat = upsert_sql_dashboard t flat := by
  by_cases h : flat.isEmpty <;> simp [upsert_sql_dashboard, h]

theorem enumFrom_map_snd_fun {α β : Type} (f : α → β) (n : Nat) (l : List α) :
    (l.enumFrom n).map (fun p => f p.2) = l.map f := by
  have h : (l.enumFrom n).map (fun p => f p.2) = ((l.enumFrom n).map Prod.snd).map f := by
    rw [List.map_map]; rfl
  rw [h, List.enumFrom_map_snd]

theorem enumFrom_map_fst_fun (n : Nat) {α : Type} (l : List α) :
    (l.enumFrom n).map (fun p => p.1) = List.range' n l.length :=
  List.enumFrom_map_fst n l

theorem filterMap_filter_tag {α : Type} (tag : α → Nat) (ks : List Nat) (f : Nat → Option α)
    (t : Nat) (hnd : ks.Nodup) (hf : ∀ k r, f k = some r → tag r = k) :
    (ks.filterMap f).filter (fun r => tag r == t) = if t ∈ ks then (f t).toList else [] := by
  induction ks with
  | nil => simp
  | cons k ks ih =>
    obtain ⟨hk, hnd'⟩ := List.nodup_cons.mp hnd
    by_cases hts : t = k
    · have hk' : t ∉ ks := hts ▸ hk
      have h2 : (ks.filterMap f).filter (fun r => tag r == t) = [] := by
        rw [ih hnd', if_neg hk']
      cases hfk : f k with
      | none =>
        simp only [List.filterMap_cons, hfk, h2]
        simp [hts, hfk]
      | some r =>
        have hr : tag r = k := hf _ _ hfk
        simp only [List.filterMap_cons, hfk, List.filter_cons]
        rw [if_pos (by rw [beq_iff_eq, hr, hts]), h2,
          if_pos (List.mem_cons.mpr (Or.inl hts)), hts, hfk]
        rfl
    · cases hfk : f k with
      | none =>
        simp only [List.filterMap_cons, hfk]
        rw [ih hnd']
        simp [List.mem_cons, hts]
      | some r =>
        have hr : tag r = k := hf _ _ hfk
        simp only [List.filterMap_cons, hfk, List.filter_cons]
        rw [if_neg (by rw [beq_iff_eq, hr]; exact fun h => hts h.symm), ih hnd']
        simp [List.mem_cons, hts]

theorem sectorSentimentOfGroup_pure (sector : Nat) (g : List MergedStat)
    (row : SectorSentimentRow) (h : sectorSentimentOfGroup sector g = some row) :
    row.direction = directionOf row.raw_score ∧ row.strength = strengthOf row.raw_score := by
  unfold sectorSentimentOfGroup at h
  split at h <;> dsimp only at h <;> split at h
  · exact absurd h (by simp)
  · exact absurd h (by simp)
  · exact absurd h (by simp)
  · injection h with h
    rw [← h]
    exact ⟨rfl, rfl⟩

theorem flatMap_filter_tag {α : Type} (tag : α → Nat) (ks : List Nat) (f : Nat → List α)
    (s : Nat) (hnd : ks.Nodup) (hf : ∀ k, ∀ r ∈ f k, tag r = k) :
    (ks.flatMap f).filter (fun r => tag r == s) = if s ∈ ks then f s else [] := by
  induction ks with
  | nil => simp
  | cons k ks ih =>
    obtain ⟨hk, hnd'⟩ := List.nodup_cons.mp hnd
    rw [List.flatMap_cons, List.filter_append]
    by_cases hts : s = k
    · have hk' : s ∉ ks := hts ▸ hk
      have h1 : (f k).filter (fun r => tag r == s) = f k :=
        List.filter_eq_self.mpr (fun r hr => by simp [hf k r hr, hts])
      have h2 : (ks.flatMap f).filter (fun r => tag r == s) = [] := by
        rw [ih hnd', if_neg hk']
      rw [h1, h2, List.append_nil, if_pos (by simp [hts]), hts]
    · have h1 : (f k).filter (fun r => tag r == s) = [] :=
        List.filter_eq_nil_iff.mpr (fun r hr => by simp [hf k r hr]; exact fun h => hts h.symm)
      rw [h1, List.nil_append, ih hnd']
      simp [List.mem_cons, hts]

/-! ### Claim theorems -/

/-- C5: for every retained sector group, direction and strength are pure
functions of raw_score; direction is Neutral iff the magnitude of the raw
score is below 0.05, Bullish iff raw_score is at least 0.05 (the boundary
0.05 is Bullish), Bearish iff raw_score is at most -0.05; strength is
floor(min(100, abs(raw_score) * 100)), lies in [0, 100], is monotone in
the magnitude of the raw score and saturates at 100. -/
theorem c5_direction_strength (weekly : List WeeklyStat) (univ : List UniverseRow)
    (row : SectorSentimentRow) (raw r1 r2 : ℚ) :
    (row ∈ compute_sector_sentiment weekly univ →
      row.direction = directionOf row.raw_score ∧ row.strength = strengthOf row.raw_score) ∧
    (directionOf raw = Direction.Neutral ↔ |raw| < 0.05) ∧
    (directionOf raw = Direction.Bullish ↔ 0.05 ≤ raw) ∧
    (directionOf raw = Direction.Bearish ↔ raw ≤ -0.05) ∧
    strengthOf raw = Int.floor (min (100 : ℚ) (|raw| * 100)) ∧
    (0 ≤ strengthOf raw ∧ strengthOf raw ≤ 100) ∧
    (|r1| ≤ |r2| → strengthOf r1 ≤ strengthOf r2) ∧
    (1 ≤ |raw| → strengthOf raw = 100) := by
  have h100 : Int.floor ((100 : ℚ)) = 100 := by norm_num
  refine ⟨?_, ?_, ?_, ?_, rfl, ⟨?_, ?_⟩, ?_, ?_⟩
  · intro hmem
    unfold compute_sector_sentiment at hmem
    obtain ⟨sec, _, hsome⟩ := List.mem_filterMap.mp hmem
    exact sectorSentimentOfGroup_pure _ _ _ hsome
  · unfold directionOf
    split_ifs with h1 h2 <;> simp [h1]
  · unfold directionOf
    split_ifs with h1 h2
    · exact iff_of_false (by simp) (not_le.mpr (lt_of_le_of_lt (le_abs_self raw) h1))
    · exact iff_of_true rfl ((abs_of_pos h2) ▸ (not_lt.mp h1))
    · exact iff_of_false (by simp)
        (not_le.mpr (lt_of_le_of_lt (not_lt.mp h2) (by norm_num)))
  · unfold directionOf
    split_ifs with h1 h2
    · exact iff_of_false (by simp) (not_le.mpr (abs_lt.mp h1).1)
    · exact iff_of_false (by simp) (not_le.mpr (lt_trans (by norm_num) h2))
    · refine iff_of_true rfl ?_
      have habs : (0.05 : ℚ) ≤ -raw := (abs_of_nonpos (not_lt.mp h2)) ▸ (not_lt.mp h1)
      linarith
  · exact Int.le_floor.mpr (by
      push_cast
      exact le_min (by norm_num) (by positivity))
  · calc strengthOf raw ≤ Int.floor ((100 : ℚ)) := Int.floor_le_floor (min_le_left _ _)
      _ = 100 := h100
  · intro h
    exact Int.floor_le_floor
      (min_le_min le_rfl (mul_le_mul_of_nonneg_right h (by norm_num)))
  · intro h
    unfold strengthOf
    rw [min_eq_left (le_trans (by norm_num) (le_mul_of_one_le_left (by norm_num) h))]
    exact h100

/-- Witness for C5 at a concrete five-member sector. -/
theorem c5_direction_strength_witness :
    c5row.direction = directionOf c5row.raw_score ∧
    c5row.strength = strengthOf c5row.raw_score ∧
    strengthOf 0 ≤ strengthOf (1 / 2) ∧ strengthOf 2 = 100 := by
  obtain ⟨hmem, _, _, _, _, _, hmono, hsat⟩ :=
    c5_direction_strength c5weekly c5univ c5row 2 0 (1 / 2)
  have hm := hmem (by decide)
  exact ⟨hm.1, hm.2, hmono (by norm_num), hsat (by norm_num)⟩

/-- C9: load_prices coerces a missing or non-numeric volume to 0 rather
than dropping the row: the loaded frame equals the one loaded from the
same table with every volume replaced by its 0-defaulted value, its row
count is the count of rows with a usable close, and the computed weekly
stats agree. -/
theorem c9_volume_coercion (table : List RawPriceRow) (cfg : WeeklyStatsConfig) :
    load_prices_df table =
      load_prices_df (table.map (fun r => { r with volume := some (r.volume.getD 0) })) ∧
    (load_prices_df table).length = (table.filter (fun r => r.close.isSome)).length ∧
    compute_last_week_stats (load_prices_df table) cfg =
      compute_last_week_stats
        (load_prices_df (table.map (fun r => { r with volume := some (r.volume.getD 0) })))
        cfg := by
  have h1 : load_prices_df table =
      load_prices_df (table.map (fun r => { r with volume := some (r.volume.getD 0) })) := by
    have hmap := List.map_insertionSort
      (fun (a b : RawPriceRow) => a.ticker < b.ticker ∨ (a.ticker = b.ticker ∧ a.date ≤ b.date))
      (fun (a b : RawPriceRow) => a.ticker < b.ticker ∨ (a.ticker = b.ticker ∧ a.date ≤ b.date))
      (fun r => { r with volume := some (r.volume.getD 0) })
      (table.filter (fun r => r.close.isSome))
      (fun a _ b _ => Iff.rfl)
    unfold load_prices_df
    rw [List.filter_map]
    rw [show ((fun (r : RawPriceRow) => r.close.isSome) ∘
        (fun r => { r with volume := some (r.volume.getD 0) })) =
        (fun (r : RawPriceRow) => r.close.isSome) from rfl]
    rw [← hmap, List.map_map]
    rfl
  refine ⟨h1, ?_, by rw [h1]⟩
  unfold load_prices_df
  rw [List.length_map, List.length_insertionSort]

theorem sectorSentimentOfGroup_some (k : Nat) (g : List MergedStat)
    (row : SectorSentimentRow) (h : sectorSentimentOfGroup k g = some row) :
    row.sector = k ∧ 5 ≤ g.length := by
  unfold sectorSentimentOfGroup at h
  split at h <;> dsimp only at h <;> split at h
  · exact absurd h (by simp)
  · exact absurd h (by simp)
  · exact absurd h (by simp)
  · refine ⟨by injection h with h; rw [← h], by omega⟩

/-- C7: a sector appears in the sentiment output if and only if the inner
join with the sector membership leaves it at least 5 member rows. -/
theorem c7_sector_min_members (weekly : List WeeklyStat) (univ : List UniverseRow) (s : Nat) :
    (∃ row ∈ compute_sector_sentiment weekly univ, row.sector = s) ↔
      5 ≤ ((mergeUniverse weekly univ).filter (fun r => r.sector == s)).length := by
  constructor
  · rintro ⟨row, hmem, hsec⟩
    simp only [compute_sector_sentiment] at hmem
    obtain ⟨k, _, hsome⟩ := List.mem_filterMap.mp hmem
    obtain ⟨hk, hlen⟩ := sectorSentimentOfGroup_some _ _ _ hsome
    rw [← hk, hsec] at hlen
    exact hlen
  · intro h5
    have hne : (mergeUniverse weekly univ).filter (fun r => r.sector == s) ≠ [] := by
      intro he
      rw [he] at h5
      simp at h5
    obtain ⟨hd, tl, hg⟩ : ∃ hd tl,
        (mergeUniverse weekly univ).filter (fun r => r.sector == s) = hd :: tl := by
      cases hgg : (mergeUniverse weekly univ).filter (fun r => r.sector == s) with
      | nil => exact absurd hgg hne
      | cons a t => exact ⟨a, t, rfl⟩
    have hsmem : s ∈ sortedSectors (mergeUniverse weekly univ) := by
      rw [mem_sortedSectors]
      have hhd : hd ∈ (mergeUniverse weekly univ).filter (fun r => r.sector == s) := by
        rw [hg]; exact List.mem_cons_self hd tl
      have hhd' := List.mem_filter.mp hhd
      exact List.mem_map.mpr ⟨hd, hhd'.1, beq_iff_eq.mp hhd'.2⟩
    obtain ⟨row0, hrow0⟩ : ∃ row0,
        sectorSentimentOfGroup s
          ((mergeUniverse weekly univ).filter (fun r => r.sector == s)) = some row0 := by
      refine Option.isSome_iff_exists.mp ?_
      unfold sectorSentimentOfGroup
      dsimp only
      rw [if_neg (not_lt.mpr h5), hg]
      rfl
    refine ⟨row0, ?_, (sectorSentimentOfGroup_some _ _ _ hrow0).1⟩
    simp only [compute_sector_sentiment]
    exact List.mem_filterMap.mpr ⟨s, hsmem, hrow0⟩

/-- Witness for C7 at the concrete five-member sector of c5weekly. -/
theorem c7_sector_min_members_witness :
    (∃ row ∈ compute_sector_sentiment c5weekly c5univ, row.sector = 10) ∧
    5 ≤ ((mergeUniverse c5weekly c5univ).filter (fun r => r.sector == 10)).length :=
  ⟨(c7_sector_min_members c5weekly c5univ 10).mpr (by decide), by decide⟩

theorem exists_mem_leftMerge {α β γ : Type} (l : List α) (r : List β) (hit : α → β → Bool)
    (combine : α → β → γ) (missing : α → γ) (a : α) (ha : a ∈ l) :
    (∃ b ∈ r.filter (hit a), combine a b ∈ leftMerge l r hit combine missing) ∨
    (r.filter (hit a) = [] ∧ missing a ∈ leftMerge l r hit combine missing) := by
  unfold leftMerge
  by_cases hms : r.filter (hit a) = []
  · right
    refine ⟨hms, List.mem_flatMap.mpr ⟨a, ha, ?_⟩⟩
    dsimp only
    rw [hms]
    simp
  · left
    obtain ⟨b, hb⟩ := List.exists_mem_of_ne_nil _ hms
    refine ⟨b, hb, List.mem_flatMap.mpr ⟨a, ha, ?_⟩⟩
    dsimp only
    rw [if_neg (by simpa [List.isEmpty_iff] using hms)]
    exact List.mem_map_of_mem _ hb

/-- C10: the dashboard build aborts when the fundamentals store is empty,
while a ticker without a fundamentals record is tolerated locally: its
flat row survives with null fundamentals fields. -/
theorem c10_fundamentals_missing (sentiment : List SectorSentimentRow)
    (top_active : List TopActiveRow) (fund : List FundamentalsRow) (r7 : List R7Row)
    (ta : TopActiveRow) :
    (load_fundamentals_latest ([] : List FundamentalsRow) =
      Except.error "No fundamentals_latest found. Run fetch_fundamentals.py first.") ∧
    (fund ≠ [] → load_fundamentals_latest fund = Except.ok fund) ∧
    (ta ∈ top_active → (∀ f ∈ fund, f.ticker ≠ ta.ticker) →
      ∃ fr ∈ build_flat_dashboard sentiment top_active fund r7,
        fr.ticker = ta.ticker ∧ fr.sector = ta.sector ∧ fr.rank = ta.rank ∧
        fr.marketCap = none ∧ fr.shortName = none ∧ fr.asof_utc = none) := by
  refine ⟨rfl, ?_, ?_⟩
  · intro h
    unfold load_fundamentals_latest
    rw [if_neg (by simpa [List.isEmpty_eq_true] using h)]
  · intro hta hfneq
    simp only [build_flat_dashboard]
    obtain ⟨x1, hx1m, hx1⟩ :
        ∃ x1 ∈ leftMerge top_active sentiment hitSent taSentHit taSentMiss, x1.ta = ta := by
      rcases exists_mem_leftMerge top_active sentiment hitSent taSentHit taSentMiss ta hta
        with ⟨b, _, hb⟩ | ⟨_, hb⟩
      · exact ⟨_, hb, rfl⟩
      · exact ⟨_, hb, rfl⟩
    have hempty : fund.filter (hitFund x1) = [] := by
      refine List.filter_eq_nil_iff.mpr (fun f hf => ?_)
      unfold hitFund
      rw [hx1, beq_iff_eq]
      exact fun h => (hfneq f hf) h.symm
    rcases exists_mem_leftMerge (leftMerge top_active sentiment hitSent taSentHit taSentMiss)
        fund hitFund
        (fun (x : TaSent) (f : FundamentalsRow) => ({ ts := x, fund := some f } : TaSentFund))
        (fun (x : TaSent) => ({ ts := x, fund := none } : TaSentFund))
        x1 hx1m with ⟨b, hbmem, _⟩ | ⟨_, hx2m⟩
    · rw [hempty] at hbmem
      exact absurd hbmem (List.not_mem_nil b)
    · rcases exists_mem_leftMerge
          (leftMerge (leftMerge top_active sentiment hitSent taSentHit taSentMiss) fund hitFund
            (fun x f => { ts := x, fund := some f }) (fun x => { ts := x, fund := none }))
          r7 hitR7 flatRowHit flatRowBase
          ⟨x1, none⟩ hx2m with ⟨b, _, hb⟩ | ⟨_, hb⟩
      · exact ⟨_, hb, by simp [flatRowHit, flatRowBase, hx1]⟩
      · exact ⟨_, hb, by simp [flatRowBase, hx1]⟩

/-- Witness for C10 with one ranked row and a fundamentals store that
lacks its ticker. -/
theorem c10_fundamentals_missing_witness :
    [({ ticker := 9, asof_utc := 0, shortName := none, industry := none, currency := none,
        exchange := none, marketCap := none, trailingPE := none, forwardPE := none,
        priceToBook := none, profitMargins := none, operatingMargins := none,
        returnOnEquity := none, dividendYield := none, beta := none } : FundamentalsRow)] ≠ [] ∧
    ∃ fr ∈ build_flat_dashboard []
        [({ sector := 10, week_ending := 5, rank := 1, ticker := 1, dollar_vol_week := 0,
            weekly_return := none, vol_ratio := none } : TopActiveRow)]
        [{ ticker := 9, asof_utc := 0, shortName := none, industry := none, currency := none,
           exchange := none, marketCap := none, trailingPE := none, forwardPE := none,
           priceToBook := none, profitMargins := none, operatingMargins := none,
           returnOnEquity := none, dividendYield := none, beta := none }] [],
      fr.ticker = 1 ∧ fr.sector = 10 ∧ fr.rank = 1 ∧
      fr.marketCap = none ∧ fr.shortName = none ∧ fr.asof_utc = none := by
  obtain ⟨-, hok, hrow⟩ := c10_fundamentals_missing []
    [({ sector := 10, week_ending := 5, rank := 1, ticker := 1, dollar_vol_week := 0,
        weekly_return := none, vol_ratio := none } : TopActiveRow)]
    [{ ticker := 9, asof_utc := 0, shortName := none, industry := none, currency := none,
       exchange := none, marketCap := none, trailingPE := none, forwardPE := none,
       priceToBook := none, profitMargins := none, operatingMargins := none,
       returnOnEquity := none, dividendYield := none, beta := none }] []
    { sector := 10, week_ending := 5, rank := 1, ticker := 1, dollar_vol_week := 0,
      weekly_return := none, vol_ratio := none }
  exact ⟨by decide, hrow (by decide) (by decide)⟩

/-- Counterexample to C2: the week-105 run on c2store succeeds end to end
(sector 10 keeps five members, so every save batch is nonempty), and
afterwards the week-50 leftovers still sit in weekly_stats and
sector_sentiment next to the freshly computed week-105 rows: a derived
table does not contain exactly the rows computed for the latest week. -/
theorem c2_counterexample :
    (run_pipeline c2store).toOption.map (fun p =>
        (p.2.weekly_stats, p.2.sector_sentiment.contains c2oldSent)) =
      some (c2oldWeekly :: c2freshWeekly, true) ∧
    c2oldWeekly.week_ending = 50 ∧ c2oldSent.week_ending = 50 ∧
    (∀ w ∈ c2freshWeekly, w.week_ending = 105) :=
  ⟨by decide, by decide, by decide, by decide⟩

/-- C2 (amended): each run recomputes the derived rows, but weekly_stats,
sector_sentiment and sector_top_active are persisted by INSERT OR REPLACE
under their natural key: every freshly computed row is present afterwards,
a stored row whose key does not recur in the batch survives, and only the
dashboard table is replaced wholesale, and only when the new flat view is
nonempty. -/
theorem c2_persistence_amended (wtable wrows : List WeeklyStat)
    (ssTable ssRows ssOut : List SectorSentimentRow)
    (taTable taRows taOut : List TopActiveRow)
    (dtable dflat : List FlatRow) (x r : WeeklyStat)
    (y u : SectorSentimentRow) (z v : TopActiveRow) :
    (r ∈ wrows → r ∈ save_weekly_stats wtable wrows) ∧
    (x ∈ wtable → (∀ q ∈ wrows, (q.ticker, q.week_ending) ≠ (x.ticker, x.week_ending)) →
      x ∈ save_weekly_stats wtable wrows) ∧
    (save_sector_sentiment ssTable ssRows = Except.ok ssOut → u ∈ ssRows → u ∈ ssOut) ∧
    (save_sector_sentiment ssTable ssRows = Except.ok ssOut → y ∈ ssTable →
      (∀ q ∈ ssRows, (q.sector, q.week_ending) ≠ (y.sector, y.week_ending)) →
      y ∈ ssOut) ∧
    (save_top_active taTable taRows = Except.ok taOut → v ∈ taRows → v ∈ taOut) ∧
    (save_top_active taTable taRows = Except.ok taOut → z ∈ taTable →
      (∀ q ∈ taRows, (q.sector, q.week_ending, q.rank) ≠ (z.sector, z.week_ending, z.rank)) →
      z ∈ taOut) ∧
    (dflat ≠ [] → upsert_sql_dashboard dtable dflat = dflat) ∧
    upsert_sql_dashboard dtable [] = dtable := by
  have hss : save_sector_sentiment ssTable ssRows = Except.ok ssOut →
      ssOut = upsertByKey (fun q => (q.sector, q.week_ending)) ssTable ssRows := by
    intro hok
    unfold save_sector_sentiment at hok
    by_cases he : ssRows.isEmpty
    · rw [if_pos he] at hok
      exact absurd hok (by simp)
    · rw [if_neg he, Except.ok.injEq] at hok
      exact hok.symm
  have hta : save_top_active taTable taRows = Except.ok taOut →
      taOut = upsertByKey (fun q => (q.sector, q.week_ending, q.rank)) taTable taRows := by
    intro hok
    unfold save_top_active at hok
    by_cases he : taRows.isEmpty
    · rw [if_pos he] at hok
      exact absurd hok (by simp)
    · rw [if_neg he, Except.ok.injEq] at hok
      exact hok.symm
  refine ⟨?_, ?_, ?_, ?_, ?_, ?_, ?_, by simp [upsert_sql_dashboard]⟩
  · intro hr
    unfold save_weekly_stats
    rw [if_neg (by simpa [List.isEmpty_iff] using List.ne_nil_of_mem hr)]
    exact List.mem_append_right _ hr
  · intro hx hkeys
    unfold save_weekly_stats
    by_cases he : wrows.isEmpty
    · rw [if_pos he]; exact hx
    · rw [if_neg he]
      exact mem_upsertByKey_of_mem_table _ _ _ _ hx hkeys
  · intro hok hu
    rw [hss hok]
    exact mem_upsertByKey_of_mem_rows _ _ _ _ hu
  · intro hok hy hkeys
    rw [hss hok]
    exact mem_upsertByKey_of_mem_table _ _ _ _ hy hkeys
  · intro hok hv
    rw [hta hok]
    exact mem_upsertByKey_of_mem_rows _ _ _ _ hv
  · intro hok hz hkeys
    rw [hta hok]
    exact mem_upsertByKey_of_mem_table _ _ _ _ hz hkeys
  · intro h
    unfold upsert_sql_dashboard
    rw [if_neg (by simpa [List.isEmpty_iff] using h)]

/-- Witness for the amended C2 at concrete tables: the fresh week-105 row
is present after every save, the week-50 row with its different key
survives, and the dashboard table is replaced by the nonempty flat view
(and untouched by an empty one). -/
theorem c2_persistence_amended_witness :
    (c2newWeekly ∈ save_weekly_stats [c2oldWeekly] [c2newWeekly] ∧
      c2oldWeekly ∈ save_weekly_stats [c2oldWeekly] [c2newWeekly]) ∧
    (c2newSent ∈ [c2oldSent, c2newSent] ∧ c2oldSent ∈ [c2oldSent, c2newSent]) ∧
    (c2newTop ∈ [c2oldTop, c2newTop] ∧ c2oldTop ∈ [c2oldTop, c2newTop]) ∧
    upsert_sql_dashboard [] [flatRowBase ⟨⟨c2newTop, none, none, none⟩, none⟩] =
      [flatRowBase ⟨⟨c2newTop, none, none, none⟩, none⟩] ∧
    upsert_sql_dashboard [] [] = ([] : List FlatRow) := by
  obtain ⟨h1, h2, h3, h4, h5, h6, h7, h8⟩ :=
    c2_persistence_amended [c2oldWeekly] [c2newWeekly]
      [c2oldSent] [c2newSent] [c2oldSent, c2newSent]
      [c2oldTop] [c2newTop] [c2oldTop, c2newTop]
      [] [flatRowBase ⟨⟨c2newTop, none, none, none⟩, none⟩]
      c2oldWeekly c2newWeekly c2oldSent c2newSent c2oldTop c2newTop
  exact ⟨⟨h1 (by decide), h2 (by decide) (by decide)⟩,
    ⟨h3 (by rfl) (by decide), h4 (by rfl) (by decide) (by decide)⟩,
    ⟨h5 (by rfl) (by decide), h6 (by rfl) (by decide) (by decide)⟩,
    h7 (by simp), h8⟩

/-- Counterexample to C3: running the chain on exStore leaves sector 20
(one member, hence no sentiment row) in the FLAT view but not in the
NESTED view: FLAT has 6 rows and so does sector_top_active for the week,
the NESTED view has only 5 leaves. -/
theorem c3_counterexample :
    ((run_pipeline exStore).toOption.map (fun p =>
      (p.1.flat.length, nestedLeafCount p.1.nested,
        (p.2.sector_top_active.filter (fun r => r.week_ending == 5)).length))) =
      some (6, 5, 6) ∧ (6 : Nat) ≠ 5 := ⟨by decide, by decide⟩

theorem filter_and_length_le {α : Type} (p q : α → Bool) (l : List α) :
    (l.filter (fun a => p a && q a)).length ≤ (l.filter p).length := by
  induction l with
  | nil => simp
  | cons a l ih =>
    rw [List.filter_cons, List.filter_cons]
    by_cases hp : p a <;> by_cases hq : q a <;> simp [hp, hq] <;> omega

theorem filter_key_le_one {α : Type} (proj : α → Nat) (l : List α)
    (h : (l.map proj).Nodup) (k : Nat) :
    (l.filter (fun b => k == proj b)).length ≤ 1 := by
  induction l with
  | nil => simp
  | cons a l ih =>
    simp only [List.map_cons, List.nodup_cons] at h
    rw [List.filter_cons]
    by_cases hk : (k == proj a)
    · rw [if_pos hk]
      have hnil : l.filter (fun b => k == proj b) = [] := by
        refine List.filter_eq_nil_iff.mpr (fun b hb hbk => ?_)
        exact h.1 (List.mem_map.mpr ⟨b, hb,
          by rw [← beq_iff_eq.mp hbk, ← beq_iff_eq.mp hk]⟩)
      rw [hnil]
      simp
    · rw [if_neg hk]
      exact ih h.2

theorem leftMerge_eq_map {α β γ : Type} (l : List α) (r : List β) (hit : α → β → Bool)
    (combine : α → β → γ) (missing : α → γ)
    (h : ∀ a, (r.filter (hit a)).length ≤ 1) :
    leftMerge l r hit combine missing =
      l.map (fun a =>
        match (r.filter (hit a)).head? with
        | some b => combine a b
        | none => missing a) := by
  unfold leftMerge
  induction l with
  | nil => rfl
  | cons a l ih =>
    rw [List.flatMap_cons, List.map_cons, ih]
    cases hms : r.filter (hit a) with
    | nil => simp
    | cons b bs =>
      have hbs : bs = [] := by
        have := h a
        rw [hms] at this
        simpa using this
      subst hbs
      simp

theorem leftMerge_length {α β γ : Type} (l : List α) (r : List β) (hit : α → β → Bool)
    (combine : α → β → γ) (missing : α → γ)
    (h : ∀ a, (r.filter (hit a)).length ≤ 1) :
    (leftMerge l r hit combine missing).length = l.length := by
  rw [leftMerge_eq_map l r hit combine missing h, List.length_map]

theorem leftMerge_map_proj {α β γ : Type} (proj : γ → Nat) (pa : α → Nat) (l : List α)
    (r : List β) (hit : α → β → Bool) (combine : α → β → γ) (missing : α → γ)
    (hc : ∀ a b, proj (combine a b) = pa a) (hm : ∀ a, proj (missing a) = pa a)
    (h : ∀ a, (r.filter (hit a)).length ≤ 1) :
    (leftMerge l r hit combine missing).map proj = l.map pa := by
  rw [leftMerge_eq_map l r hit combine missing h, List.map_map]
  refine List.map_congr_left (fun a _ => ?_)
  simp only [Function.comp]
  cases (r.filter (hit a)).head? with
  | some b => exact hc a b
  | none => exact hm a

theorem sum_map_add_nat (f g : Nat → Nat) (ks : List Nat) :
    (ks.map (fun k => f k + g k)).sum = (ks.map f).sum + (ks.map g).sum := by
  induction ks with
  | nil => rfl
  | cons k ks ih =>
    simp only [List.map_cons, List.sum_cons, ih]
    omega

theorem sum_map_ite_zero (a : Nat) (ks : List Nat) (ha : a ∉ ks) :
    (ks.map (fun k => if a == k then 1 else 0)).sum = 0 := by
  induction ks with
  | nil => rfl
  | cons k ks ih =>
    simp only [List.map_cons, List.sum_cons]
    rw [if_neg (by simp; rintro rfl; exact ha (List.mem_cons_self a ks)),
      ih (fun hmem => ha (List.mem_cons_of_mem _ hmem))]

theorem sum_map_ite_one (a : Nat) (ks : List Nat) (hnd : ks.Nodup) (ha : a ∈ ks) :
    (ks.map (fun k => if a == k then 1 else 0)).sum = 1 := by
  induction ks with
  | nil => exact absurd ha (List.not_mem_nil a)
  | cons k ks ih =>
    obtain ⟨hk, hnd'⟩ := List.nodup_cons.mp hnd
    simp only [List.map_cons, List.sum_cons]
    by_cases hak : a = k
    · rw [if_pos (by simp [hak]), sum_map_ite_zero a ks (hak ▸ hk)]
    · rw [if_neg (by simp [hak]),
        ih hnd' (by rcases List.mem_cons.mp ha with h | h; exacts [absurd h hak, h])]

theorem sum_map_zero_nat (ks : List Nat) : (ks.map (fun _ => (0 : Nat))).sum = 0 := by
  induction ks with
  | nil => rfl
  | cons k ks ih =>
    rw [List.map_cons, List.sum_cons, ih]

theorem sum_filter_length {α : Type} (proj : α → Nat) (ks : List Nat) (l : List α)
    (hnd : ks.Nodup) (hall : ∀ x ∈ l, proj x ∈ ks) :
    (ks.map (fun k => (l.filter (fun x => proj x == k)).length)).sum = l.length := by
  induction l with
  | nil =>
    simp only [List.filter_nil, List.length_nil]
    exact sum_map_zero_nat ks
  | cons x l ih =>
    have hx := hall x (List.mem_cons_self x l)
    have hstep : (ks.map (fun k => ((x :: l).filter (fun y => proj y == k)).length)) =
        ks.map (fun k => (if proj x == k then 1 else 0) +
          (l.filter (fun y => proj y == k)).length) := by
      refine List.map_congr_left (fun k _ => ?_)
      rw [List.filter_cons]
      by_cases hxk : (proj x == k)
      · simp [hxk]
        omega
      · simp [hxk]
    rw [hstep, sum_map_add_nat, sum_map_ite_one (proj x) ks hnd hx,
      ih (fun y hy => hall y (List.mem_cons_of_mem x hy)), List.length_cons]
    omega

theorem nestedLeafCount_eq (sentiment : List SectorSentimentRow) (flat : List FlatRow) :
    nestedLeafCount (build_nested_json sentiment flat) =
      ((sortSentimentForNested sentiment).map (fun srow =>
        (flat.filter (fun r => r.sector == srow.sector)).length)).sum := by
  unfold nestedLeafCount build_nested_json
  dsimp only
  rw [List.map_map]
  refine congrArg List.sum (List.map_congr_left (fun srow _ => ?_))
  simp only [Function.comp]
  rw [List.length_map, List.length_insertionSort]

/-- C3 (amended): with unique sentiment sectors and unique fundamentals
and return tickers, the FLAT view always has exactly one row per
top-active row; the NESTED leaf count also equals that number provided
every sector carrying a top-active row has a sentiment row - a sector
with fewer than five members appears in FLAT but not in NESTED. -/
theorem c3_flat_nested_counts (sentiment : List SectorSentimentRow) (top : List TopActiveRow)
    (fund : List FundamentalsRow) (r7 : List R7Row)
    (h1 : (sentiment.map (fun s => s.sector)).Nodup)
    (h2 : (fund.map (fun f => f.ticker)).Nodup)
    (h3 : (r7.map (fun r => r.ticker)).Nodup) :
    (build_flat_dashboard sentiment top fund r7).length = top.length ∧
    ((∀ ta ∈ top, ta.sector ∈ sentiment.map (fun s => s.sector)) →
      nestedLeafCount
          (build_nested_json sentiment (build_flat_dashboard sentiment top fund r7)) =
        top.length) := by
  have u1 : ∀ (ta : TopActiveRow), (sentiment.filter (hitSent ta)).length ≤ 1 := by
    intro ta
    have hb := filter_and_length_le (fun s => ta.sector == s.sector)
      (fun s => ta.week_ending == s.week_ending) sentiment
    have hc := filter_key_le_one (fun s => s.sector) sentiment h1 ta.sector
    exact le_trans hb hc
  have u2 : ∀ (x : TaSent), (fund.filter (hitFund x)).length ≤ 1 := by
    intro x
    exact filter_key_le_one (fun f => f.ticker) fund h2 x.ta.ticker
  have u3 : ∀ (x : TaSentFund), (r7.filter (hitR7 x)).length ≤ 1 := by
    intro x
    exact filter_key_le_one (fun r => r.ticker) r7 h3 x.ts.ta.ticker
  have hlen : (build_flat_dashboard sentiment top fund r7).length = top.length := by
    simp only [build_flat_dashboard]
    rw [leftMerge_length _ _ _ _ _ u3, leftMerge_length _ _ _ _ _ u2,
      leftMerge_length _ _ _ _ _ u1]
  have hsec : (build_flat_dashboard sentiment top fund r7).map (fun fr => fr.sector) =
      top.map (fun ta => ta.sector) := by
    simp only [build_flat_dashboard]
    rw [leftMerge_map_proj (fun fr : FlatRow => fr.sector)
        (fun x : TaSentFund => x.ts.ta.sector)
        _ _ _ _ _ (fun a b => rfl) (fun a => rfl) u3,
      leftMerge_map_proj (fun x : TaSentFund => x.ts.ta.sector) (fun x : TaSent => x.ta.sector)
        _ _ _ _ _ (fun a b => rfl) (fun a => rfl) u2,
      leftMerge_map_proj (fun x : TaSent => x.ta.sector) (fun ta : TopActiveRow => ta.sector)
        _ _ _ _ _ (fun a b => rfl) (fun a => rfl) u1]
  refine ⟨hlen, fun h4 => ?_⟩
  have hall : ∀ x ∈ build_flat_dashboard sentiment top fund r7,
      x.sector ∈ sentiment.map (fun s => s.sector) := by
    intro x hx
    have hx1 : x.sector ∈ (build_flat_dashboard sentiment top fund r7).map (fun fr => fr.sector) :=
      List.mem_map_of_mem _ hx
    rw [hsec] at hx1
    obtain ⟨ta, hta, htas⟩ := List.mem_map.mp hx1
    exact htas ▸ h4 ta hta
  rw [nestedLeafCount_eq]
  have hperm : List.Perm
      ((sortSentimentForNested sentiment).map (fun srow =>
        ((build_flat_dashboard sentiment top fund r7).filter
          (fun r => r.sector == srow.sector)).length))
      (sentiment.map (fun srow =>
        ((build_flat_dashboard sentiment top fund r7).filter
          (fun r => r.sector == srow.sector)).length)) :=
    (List.perm_insertionSort _ _).map _
  rw [hperm.sum_eq]
  have hmm :
      sentiment.map (fun srow =>
        ((build_flat_dashboard sentiment top fund r7).filter
          (fun r => r.sector == srow.sector)).length) =
      (sentiment.map (fun s => s.sector)).map (fun k =>
        ((build_flat_dashboard sentiment top fund r7).filter
          (fun r => r.sector == k)).length) := by
    rw [List.map_map]
    rfl
  rw [hmm]
  exact (sum_filter_length (fun r : FlatRow => r.sector) (sentiment.map (fun s => s.sector))
    (build_flat_dashboard sentiment top fund r7) h1 hall).trans hlen

/-- Witness for the amended C3 at a one-sector dashboard. -/
theorem c3_flat_nested_counts_witness :
    (build_flat_dashboard [c2oldSent]
      [({ sector := 10, week_ending := 50, rank := 1, ticker := 1, dollar_vol_week := 0,
          weekly_return := none, vol_ratio := none } : TopActiveRow)] [] []).length = 1 ∧
    nestedLeafCount (build_nested_json [c2oldSent]
      (build_flat_dashboard [c2oldSent]
        [({ sector := 10, week_ending := 50, rank := 1, ticker := 1, dollar_vol_week := 0,
            weekly_return := none, vol_ratio := none } : TopActiveRow)] [] [])) = 1 := by
  have h := c3_flat_nested_counts [c2oldSent]
    [{ sector := 10, week_ending := 50, rank := 1, ticker := 1, dollar_vol_week := 0,
       weekly_return := none, vol_ratio := none }] [] []
    (by decide) (by decide) (by decide)
  exact ⟨h.1.trans (by decide), (h.2 (by decide)).trans (by decide)⟩

theorem lastWeekStatsOfGroup_default (t : Nat) (g0 : List PriceRow) :
    (( sortValuesByDate (g0.filter (fun r => r.close.isSome))).length < 5 →
      lastWeekStatsOfGroup defaultWeeklyStatsConfig t g0 = none) ∧
    (5 ≤ (sortValuesByDate (g0.filter (fun r => r.close.isSome))).length →
      ∃ firstRow lastRow,
        ((sortValuesByDate (g0.filter (fun r => r.close.isSome))).drop
          ((sortValuesByDate (g0.filter (fun r => r.close.isSome))).length - 5)).head? =
            some firstRow ∧
        ((sortValuesByDate (g0.filter (fun r => r.close.isSome))).drop
          ((sortValuesByDate (g0.filter (fun r => r.close.isSome))).length - 5)).getLast? =
            some lastRow ∧
        lastWeekStatsOfGroup defaultWeeklyStatsConfig t g0 = some
          { ticker := t
            week_ending := lastRow.date
            weekly_return :=
              if closeVal firstRow = 0 then none
              else some (closeVal lastRow / closeVal firstRow - 1)
            dollar_vol_week :=
              (((sortValuesByDate (g0.filter (fun r => r.close.isSome))).drop
                ((sortValuesByDate (g0.filter (fun r => r.close.isSome))).length - 5)).map
                  (fun r => closeVal r * r.volume)).sum
            week_volume :=
              (((sortValuesByDate (g0.filter (fun r => r.close.isSome))).drop
                ((sortValuesByDate (g0.filter (fun r => r.close.isSome))).length - 5)).map
                  (fun r => r.volume)).sum
            vol_ratio :=
              if 45 ≤ (sortValuesByDate (g0.filter (fun r => r.close.isSome))).length then
                if ((((sortValuesByDate (g0.filter (fun r => r.close.isSome))).drop
                      ((sortValuesByDate (g0.filter (fun r => r.close.isSome))).length - 45)).take
                        40).map (fun r => r.volume)).sum / ((8 : Nat) : ℚ) = 0 then none
                else some
                  ((((sortValuesByDate (g0.filter (fun r => r.close.isSome))).drop
                    ((sortValuesByDate (g0.filter (fun r => r.close.isSome))).length - 5)).map
                      (fun r => r.volume)).sum /
                    (((((sortValuesByDate (g0.filter (fun r => r.close.isSome))).drop
                      ((sortValuesByDate (g0.filter (fun r => r.close.isSome))).length - 45)).take
                        40).map (fun r => r.volume)).sum / ((8 : Nat) : ℚ)))
              else none }) := by
  constructor
  · intro hlt
    unfold lastWeekStatsOfGroup
    simp only [defaultWeeklyStatsConfig]
    rw [if_pos hlt]
  · intro hge
    have hweeklen : ((sortValuesByDate (g0.filter (fun r => r.close.isSome))).drop
        ((sortValuesByDate (g0.filter (fun r => r.close.isSome))).length - 5)).length = 5 := by
      rw [List.length_drop]
      omega
    have hne : (sortValuesByDate (g0.filter (fun r => r.close.isSome))).drop
        ((sortValuesByDate (g0.filter (fun r => r.close.isSome))).length - 5) ≠ [] := by
      intro hnil
      rw [hnil] at hweeklen
      exact absurd hweeklen (by decide)
    obtain ⟨firstRow, hfirst⟩ := Option.isSome_iff_exists.mp (List.head?_isSome.mpr hne)
    obtain ⟨lastRow, hlast⟩ := Option.isSome_iff_exists.mp (List.getLast?_isSome.mpr hne)
    refine ⟨firstRow, lastRow, hfirst, hlast, ?_⟩
    unfold lastWeekStatsOfGroup
    simp only [defaultWeeklyStatsConfig]
    rw [if_neg (not_lt.mpr hge)]
    rw [if_neg (by decide : ¬(5 = 0))]
    rw [hfirst, hlast]
    norm_num

theorem sortValuesByDate_length (g : List PriceRow) :
    (sortValuesByDate g).length = g.length :=
  List.length_insertionSort _ _

theorem compute_filter_ticker (prices : List PriceRow) (t : Nat) :
    (compute_last_week_stats prices defaultWeeklyStatsConfig).filter (fun r => r.ticker == t) =
      if t ∈ firstAppearance (prices.map (fun r => r.ticker))
      then (lastWeekStatsOfGroup defaultWeeklyStatsConfig t
        (prices.filter (fun r => r.ticker == t))).toList
      else [] := by
  unfold compute_last_week_stats
  refine filterMap_filter_tag (fun r : WeeklyStat => r.ticker) _ _ t
    (nodup_firstAppearance _) ?_
  intro k r hkr
  by_cases hc : (sortValuesByDate ((prices.filter (fun p => p.ticker == k)).filter
      (fun r => r.close.isSome))).length < 5
  · rw [(lastWeekStatsOfGroup_default k _).1 hc] at hkr
    exact absurd hkr (by simp)
  · obtain ⟨fr, lr, _, _, heq⟩ := (lastWeekStatsOfGroup_default k _).2 (not_lt.mp hc)
    rw [heq] at hkr
    injection hkr with hkr
    rw [← hkr]

theorem ticker_mem_firstAppearance (prices : List PriceRow) (t : Nat)
    (h : ((prices.filter (fun r => r.ticker == t)).filter (fun r => r.close.isSome)) ≠ []) :
    t ∈ firstAppearance (prices.map (fun r => r.ticker)) := by
  obtain ⟨p, hp⟩ := List.exists_mem_of_ne_nil _ h
  have hp1 := List.mem_filter.mp hp
  have hp2 := List.mem_filter.mp hp1.1
  rw [mem_firstAppearance]
  exact List.mem_map.mpr ⟨p, hp2.1, beq_iff_eq.mp hp2.2⟩

/-- C6: a ticker with at least 5 usable closes yields exactly one weekly
row, whose weekly_return is last close over first close minus one across
the last five sessions, null (not an error) when the first close is 0; a
ticker with fewer than 5 usable closes yields no row (the computation is
total, so no error either). -/
theorem c6_weekly_return (prices : List PriceRow) (t : Nat) :
    (5 ≤ ((prices.filter (fun r => r.ticker == t)).filter (fun r => r.close.isSome)).length →
      ((compute_last_week_stats prices defaultWeeklyStatsConfig).filter
          (fun r => r.ticker == t)).length = 1 ∧
      (∀ row ∈ (compute_last_week_stats prices defaultWeeklyStatsConfig).filter
          (fun r => r.ticker == t),
        ∃ firstRow lastRow,
          ((sortValuesByDate ((prices.filter (fun r => r.ticker == t)).filter
              (fun r => r.close.isSome))).drop
            ((sortValuesByDate ((prices.filter (fun r => r.ticker == t)).filter
              (fun r => r.close.isSome))).length - 5)).head? = some firstRow ∧
          ((sortValuesByDate ((prices.filter (fun r => r.ticker == t)).filter
              (fun r => r.close.isSome))).drop
            ((sortValuesByDate ((prices.filter (fun r => r.ticker == t)).filter
              (fun r => r.close.isSome))).length - 5)).getLast? = some lastRow ∧
          row.weekly_return =
            (if closeVal firstRow = 0 then none
             else some (closeVal lastRow / closeVal firstRow - 1)))) ∧
    (((prices.filter (fun r => r.ticker == t)).filter (fun r => r.close.isSome)).length < 5 →
      (compute_last_week_stats prices defaultWeeklyStatsConfig).filter
        (fun r => r.ticker == t) = []) := by
  constructor
  · intro h5
    have h5' : 5 ≤ (sortValuesByDate ((prices.filter (fun r => r.ticker == t)).filter
        (fun r => r.close.isSome))).length := by
      rw [sortValuesByDate_length]
      exact h5
    have hmem : t ∈ firstAppearance (prices.map (fun r => r.ticker)) := by
      refine ticker_mem_firstAppearance prices t (fun hnil => ?_)
      rw [hnil] at h5
      exact absurd h5 (by decide)
    obtain ⟨fr, lr, hf, hl, heq⟩ := (lastWeekStatsOfGroup_default t _).2 h5'
    rw [compute_filter_ticker, if_pos hmem, heq]
    refine ⟨rfl, ?_⟩
    intro row hrow
    simp only [Option.toList_some, List.mem_singleton] at hrow
    subst hrow
    exact ⟨fr, lr, hf, hl, rfl⟩
  · intro hlt
    rw [compute_filter_ticker]
    split_ifs with hm
    · rw [(lastWeekStatsOfGroup_default t _).1 (by rw [sortValuesByDate_length]; exact hlt)]
      rfl
    · rfl

/-- Witness for C6: the five-session ticker yields exactly one row. -/
theorem c6_weekly_return_witness :
    ((compute_last_week_stats c6prices defaultWeeklyStatsConfig).filter
      (fun r => r.ticker == 1)).length = 1 ∧
    (5 : Nat) ≤ ((c6prices.filter (fun r => r.ticker == 1)).filter
      (fun r => r.close.isSome)).length :=
  ⟨((c6_weekly_return c6prices 1).1 (by decide)).1, by decide⟩

/-- C4: vol_ratio is null whenever the ticker has fewer than 45 usable
sessions; with at least 45 it is week_volume divided by the mean weekly
baseline volume (the volume sum of the 40 sessions preceding the current
week divided by 8), null when that average is 0. -/
theorem c4_vol_ratio (prices : List PriceRow) (t : Nat) (row : WeeklyStat)
    (hrow : row ∈ (compute_last_week_stats prices defaultWeeklyStatsConfig).filter
      (fun r => r.ticker == t)) :
    (((prices.filter (fun r => r.ticker == t)).filter (fun r => r.close.isSome)).length < 45 →
      row.vol_ratio = none) ∧
    (45 ≤ ((prices.filter (fun r => r.ticker == t)).filter (fun r => r.close.isSome)).length →
      row.vol_ratio =
        (if ((((sortValuesByDate ((prices.filter (fun r => r.ticker == t)).filter
              (fun r => r.close.isSome))).drop
            ((sortValuesByDate ((prices.filter (fun r => r.ticker == t)).filter
              (fun r => r.close.isSome))).length - 45)).take 40).map
                (fun r => r.volume)).sum / ((8 : Nat) : ℚ) = 0 then none
         else some (row.week_volume /
           (((((sortValuesByDate ((prices.filter (fun r => r.ticker == t)).filter
                (fun r => r.close.isSome))).drop
              ((sortValuesByDate ((prices.filter (fun r => r.ticker == t)).filter
                (fun r => r.close.isSome))).length - 45)).take 40).map
                  (fun r => r.volume)).sum / ((8 : Nat) : ℚ))))) := by
  rw [compute_filter_ticker] at hrow
  by_cases hm : t ∈ firstAppearance (prices.map (fun r => r.ticker))
  · rw [if_pos hm] at hrow
    by_cases hc : (sortValuesByDate ((prices.filter (fun p => p.ticker == t)).filter
        (fun r => r.close.isSome))).length < 5
    · rw [(lastWeekStatsOfGroup_default t _).1 hc] at hrow
      exact absurd hrow (by simp)
    · obtain ⟨fr, lr, _, _, heq⟩ := (lastWeekStatsOfGroup_default t _).2 (not_lt.mp hc)
      rw [heq] at hrow
      simp only [Option.toList_some, List.mem_singleton] at hrow
      subst hrow
      constructor
      · intro h45
        have hlt : ¬ (45 ≤ (sortValuesByDate ((prices.filter (fun r => r.ticker == t)).filter
            (fun r => r.close.isSome))).length) := by
          rw [sortValuesByDate_length]
          omega
        simp only []
        rw [if_neg hlt]
      · intro h45
        have hge : 45 ≤ (sortValuesByDate ((prices.filter (fun r => r.ticker == t)).filter
            (fun r => r.close.isSome))).length := by
          rw [sortValuesByDate_length]
          exact h45
        simp only []
        rw [if_pos hge]
  · rw [if_neg hm] at hrow
    exact absurd hrow (by simp)

/-- Witness for C4: with exactly 45 sessions the ratio of week volume 10
to baseline average 10 is 1. -/
theorem c4_vol_ratio_witness : c4row.vol_ratio = some 1 :=
  (((c4_vol_ratio c4prices 1 c4row (by decide)).2 (by decide)).trans (by decide))

theorem flatMap_congr_mem {α β : Type} (ks : List α) (f g : α → List β)
    (h : ∀ k ∈ ks, f k = g k) : ks.flatMap f = ks.flatMap g := by
  induction ks with
  | nil => rfl
  | cons k ks ih =>
    rw [List.flatMap_cons, List.flatMap_cons, h k (List.mem_cons_self k ks),
      ih (fun a ha => h a (List.mem_cons_of_mem k ha))]

theorem emitTopActive_sector (k : Nat) (g : List MergedStat) :
    ∀ r ∈ emitTopActive k g, r.sector = k := by
  intro r hr
  unfold emitTopActive at hr
  split at hr
  · exact absurd hr (List.not_mem_nil r)
  · obtain ⟨p, _, hp⟩ := List.mem_map.mp hr
    rw [← hp]

theorem emitTopActive_eq (k : Nat) (g : List MergedStat) (hne : g ≠ []) :
    ∃ h, g.head? = some h ∧
      emitTopActive k g =
        (g.enumFrom 1).map (fun p =>
          { sector := k, week_ending := h.week_ending, rank := p.1, ticker := p.2.ticker,
            dollar_vol_week := p.2.dollar_vol_week, weekly_return := p.2.weekly_return,
            vol_ratio := p.2.vol_ratio }) := by
  obtain ⟨h, hh⟩ := Option.isSome_iff_exists.mp (List.head?_isSome.mpr hne)
  refine ⟨h, hh, ?_⟩
  unfold emitTopActive
  rw [hh]

theorem sortedPerm_sortDescDollarVol (g : List MergedStat) :
    SortedDescDollarVolPerm g (sortDescDollarVol g) :=
  ⟨(List.perm_insertionSort _ g).symm, List.sorted_insertionSort _ g⟩

theorem rank_top_active_mem_rel (weekly : List WeeklyStat) (univ : List UniverseRow)
    (top_n : Nat) :
    RankTopActiveRel weekly univ top_n (rank_top_active weekly univ top_n) :=
  ⟨fun s => topActiveOfGroup top_n s
      ((mergeUniverse weekly univ).filter (fun r => r.sector == s)),
   fun _ _ => ⟨sortDescDollarVol _, sortedPerm_sortDescDollarVol _, rfl⟩,
   rfl⟩

/-- C1 (amended): under the sort contract of the kind-less descending
sort, every admissible output of rank_top_active emits per sector the
contiguous ranks 1..min(top_n, joined members), rows ordered by
non-increasing dollar_vol_week, each row drawn from the sector's joined
rows; the executable rank_top_active is one admissible output.  The
original tie-stability conjunct is dropped: the contract fixes no order
on rows with equal dollar_vol_week (see the counterexample). -/
theorem c1_rank_top_active_amended (weekly : List WeeklyStat) (univ : List UniverseRow)
    (top_n : Nat) (htop : 0 < top_n) :
    RankTopActiveRel weekly univ top_n (rank_top_active weekly univ top_n) ∧
    ∀ out : List TopActiveRow, RankTopActiveRel weekly univ top_n out → ∀ s : Nat,
      ((out.filter (fun r => r.sector == s)).map (fun r => r.rank) =
        List.range' 1 (min top_n (((mergeUniverse weekly univ).filter
          (fun r => r.sector == s)).length))) ∧
      ((out.filter (fun r => r.sector == s)).map (fun r => r.dollar_vol_week)).Sorted
        (fun a b : ℚ => b ≤ a) ∧
      (∀ r ∈ out.filter (fun r => r.sector == s),
        ∃ m ∈ (mergeUniverse weekly univ).filter (fun r => r.sector == s),
          r.ticker = m.ticker ∧ r.dollar_vol_week = m.dollar_vol_week ∧
          r.weekly_return = m.weekly_return ∧ r.vol_ratio = m.vol_ratio) := by
  refine ⟨rank_top_active_mem_rel weekly univ top_n, ?_⟩
  rintro out ⟨pick, hpick, hout⟩
  intro s
  have htag : ∀ k, ∀ r ∈ (if k ∈ sortedSectors (mergeUniverse weekly univ)
      then pick k else []), r.sector = k := by
    intro k r hr
    by_cases hk : k ∈ sortedSectors (mergeUniverse weekly univ)
    · rw [if_pos hk] at hr
      obtain ⟨g2, hg2, hemit⟩ := hpick k hk
      rw [hemit] at hr
      exact emitTopActive_sector k _ r hr
    · rw [if_neg hk] at hr
      exact absurd hr (List.not_mem_nil r)
  have hflt : out.filter (fun r => r.sector == s) =
      if s ∈ sortedSectors (mergeUniverse weekly univ) then pick s else [] := by
    subst hout
    rw [flatMap_congr_mem _ pick (fun k =>
        if k ∈ sortedSectors (mergeUniverse weekly univ) then pick k else [])
      (fun k hk => by
        show pick k = if k ∈ sortedSectors (mergeUniverse weekly univ) then pick k else []
        rw [if_pos hk]),
      flatMap_filter_tag (fun r : TopActiveRow => r.sector) _ _ s
        (nodup_sortedSectors _) htag]
    by_cases hs : s ∈ sortedSectors (mergeUniverse weekly univ)
    · rw [if_pos hs, if_pos hs]
    · rw [if_neg hs, if_neg hs]
  by_cases hs : s ∈ sortedSectors (mergeUniverse weekly univ)
  · obtain ⟨g2, ⟨hperm, hsort⟩, hemit⟩ := hpick s hs
    have hgne : (mergeUniverse weekly univ).filter (fun r => r.sector == s) ≠ [] := by
      obtain ⟨a, ha, has⟩ := List.mem_map.mp ((mem_sortedSectors _ s).mp hs)
      exact List.ne_nil_of_mem (List.mem_filter.mpr ⟨ha, by simp [has]⟩)
    have htne : g2.take top_n ≠ [] := by
      have h1 : 0 < g2.length := by
        rw [← hperm.length_eq]
        exact List.length_pos.mpr hgne
      have h2 : 0 < (g2.take top_n).length := by
        rw [List.length_take]
        omega
      exact List.length_pos.mp h2
    obtain ⟨h, hh, he⟩ := emitTopActive_eq s (g2.take top_n) htne
    rw [hflt, if_pos hs, hemit, he]
    refine ⟨?_, ?_, ?_⟩
    · rw [List.map_map]
      have hfst := enumFrom_map_fst_fun 1 (g2.take top_n)
      rw [List.length_take, ← hperm.length_eq] at hfst
      exact hfst
    · rw [List.map_map]
      have hsnd := enumFrom_map_snd_fun
        (fun m : MergedStat => m.dollar_vol_week) 1 (g2.take top_n)
      have hgoal : ((g2.take top_n).map
          (fun m : MergedStat => m.dollar_vol_week)).Sorted (fun a b : ℚ => b ≤ a) := by
        refine List.pairwise_map.mpr ?_
        exact List.Pairwise.sublist (List.take_sublist _ _) hsort
      exact hsnd ▸ hgoal
    · intro r hr
      obtain ⟨p, hp, hpr⟩ := List.mem_map.mp hr
      refine ⟨p.2, ?_, ?_⟩
      · have hp2 : p.2 ∈ g2.take top_n := by
          have hm : p.2 ∈ ((g2.take top_n).enumFrom 1).map Prod.snd :=
            List.mem_map.mpr ⟨p, hp, rfl⟩
          rw [List.enumFrom_map_snd] at hm
          exact hm
        exact hperm.mem_iff.mpr (List.take_subset _ _ hp2)
      · rw [← hpr]
        exact ⟨rfl, rfl, rfl, rfl⟩
  · have hg : (mergeUniverse weekly univ).filter (fun r => r.sector == s) = [] := by
      refine List.filter_eq_nil_iff.mpr (fun r hr hrs => ?_)
      exact hs ((mem_sortedSectors _ s).mpr
        (List.mem_map.mpr ⟨r, hr, beq_iff_eq.mp hrs⟩))
    rw [hflt, if_neg hs, hg]
    refine ⟨by simp, by simp [List.Sorted], by simp⟩

/-- Counterexample to C1: the descending sort of rank_top_active passes no
kind argument, so pandas sorts with its default numpy quicksort; that sort
is not stable and the code warrants only the sort contract
RankTopActiveRel.  On c1weekly/c1univ, where tickers 1 and 3 tie at dollar
volume 5 in input order [1, 3], the contract admits the output c1tieOut
whose tied rows come out as [3, 1]: rows with equal dollar_vol_week are
not guaranteed to retain their pre-sort relative input order. -/
theorem c1_counterexample :
    RankTopActiveRel c1weekly c1univ 10 c1tieOut ∧
    (c1tieOut.filter (fun r => r.dollar_vol_week == 5)).map (fun r => r.ticker) = [3, 1] ∧
    ((((mergeUniverse c1weekly c1univ).filter (fun r => r.sector == 10)).filter
        (fun r => r.dollar_vol_week == 5)).map (fun r => r.ticker)) = [1, 3] := by
  refine ⟨⟨fun _ => c1tieOut, ?_, by decide⟩, by decide, by decide⟩
  intro k hk
  have hk10 : k = 10 := by
    have hks : sortedSectors (mergeUniverse c1weekly c1univ) = [10] := by decide
    rw [hks] at hk
    simpa using hk
  subst hk10
  exact ⟨c1flip, ⟨by decide, by decide⟩, by decide⟩

/-- Witness for the amended C1: the executable run at top_n = 2 on
c1weekly/c1univ satisfies the sort contract, and its sector-10 ranks are
exactly the range 1..2. -/
theorem c1_rank_top_active_amended_witness :
    (0 : Nat) < 2 ∧
    RankTopActiveRel c1weekly c1univ 2 (rank_top_active c1weekly c1univ 2) ∧
    ((rank_top_active c1weekly c1univ 2).filter (fun r => r.sector == 10)).map
        (fun r => r.rank) =
      List.range' 1 (min 2 (((mergeUniverse c1weekly c1univ).filter
        (fun r => r.sector == 10)).length)) := by
  obtain ⟨hmem, hall⟩ := c1_rank_top_active_amended c1weekly c1univ 2 (by decide)
  exact ⟨by decide, hmem, (hall _ hmem 10).1⟩

/-- C8: a successful chain run is idempotent: running it again from the
stored state it produced yields the same FLAT and NESTED output (and the
same store). -/
theorem c8_idempotent (s : Store) (o : DashboardOutput) (s1 : Store)
    (h : run_pipeline s = Except.ok (o, s1)) :
    run_pipeline s1 = Except.ok (o, s1) := by
  obtain ⟨pr, un, fu, ws, ss, ta, db⟩ := s
  unfold run_pipeline weeklyStatsMain at h
  cases hlp : load_prices pr with
  | error e =>
    rw [hlp] at h
    exact absurd h (by simp [Except.map])
  | ok P =>
    rw [hlp] at h
    simp only [Except.map] at h
    unfold sectorSentimentMain at h
    dsimp only at h
    cases hss : save_sector_sentiment ss (compute_sector_sentiment
        (save_weekly_stats ws (compute_last_week_stats P defaultWeeklyStatsConfig)) un) with
    | error e =>
      rw [hss] at h
      exact absurd h (by simp)
    | ok SS =>
      rw [hss] at h
      dsimp only at h
      unfold topActiveMain at h
      dsimp only at h
      cases hta : save_top_active ta (rank_top_active
          (save_weekly_stats ws (compute_last_week_stats P defaultWeeklyStatsConfig)) un 10) with
      | error e =>
        rw [hta] at h
        exact absurd h (by simp)
      | ok TA =>
        rw [hta] at h
        dsimp only at h
        unfold dashboardMain at h
        dsimp only at h
        cases hwe : load_latest_week_ending SS with
        | error e =>
          rw [hwe] at h
          exact absurd h (by simp)
        | ok we =>
          rw [hwe] at h
          dsimp only at h
          cases hf : load_fundamentals_latest fu with
          | error e =>
            rw [hf] at h
            exact absurd h (by simp)
          | ok F =>
            rw [hf] at h
            dsimp only at h
            rw [Except.ok.injEq, Prod.mk.injEq] at h
            obtain ⟨ho, hs1⟩ := h
            subst ho
            subst hs1
            unfold run_pipeline weeklyStatsMain
            rw [hlp]
            simp only [Except.map]
            rw [save_weekly_stats_idem]
            unfold sectorSentimentMain
            dsimp only
            rw [save_sector_sentiment_idem _ _ _ hss]
            dsimp only
            unfold topActiveMain
            dsimp only
            rw [save_top_active_idem _ _ _ hta]
            dsimp only
            unfold dashboardMain
            dsimp only
            rw [hwe]
            dsimp only
            rw [hf]
            dsimp only
            rw [upsert_sql_dashboard_idem]

/-- Witness for C8: the concrete run of exStore reruns to the same
output and store. -/
theorem c8_idempotent_witness :
    run_pipeline exRunStore = Except.ok (exRunOut, exRunStore) :=
  c8_idempotent exStore exRunOut exRunStore (by rfl)

end Stare
